import Mathlib

/-!
Verification of the group-description store of a conference server.

The Go sources (package `group`, file `description.go`, plus its tests and
the web front end) are shallowly embedded below.  JSON documents are
modelled by an explicit `Json` inductive; Go slices and maps whose nil /
empty distinction is observable are modelled as `Option (List _)`
(`none` = Go `nil`); the file system is an association list from paths to
files; `os` failures during the write sequence are injected through an
explicit environment.
-/

namespace Galene

/-- JSON values.  Numbers are restricted to integers, which covers every
numeric field of a group description. -/
inductive Json where
  | null : Json
  | bool (b : Bool) : Json
  | num (n : Int) : Json
  | str (s : String) : Json
  | arr (elems : List Json) : Json
  | obj (fields : List (String × Json)) : Json

/-- Modelled from the spec: the `Password` type lives in a file that is not
part of the sources under verification; the spec treats credentials as
"opaque, correct primitives supplied by a credential-verification
collaborator".  We therefore keep a password as its raw JSON document, so
that it serialises verbatim in both directions.  The one password literal
the sources build, `Password{Type: "wildcard"}`, is `wildcardPassword`
below, and only its "type" tag is ever inspected. -/
structure Password where
  raw : Json

/-- The `Password{Type: "wildcard"}` literal of `upgradeDescription`. -/
def wildcardPassword : Password :=
  ⟨Json.obj [("type", Json.str "wildcard")]⟩

/-- The "type" tag of a password document. -/
def Password.pwType (p : Password) : Option String :=
  match p.raw with
  | Json.obj fields =>
      match fields.lookup "type" with
      | some (Json.str s) => some s
      | _ => none
  | _ => none

/-- Modelled from the spec: credential verification is an opaque
collaborator; "a password of type wildcard ... verifies against any
supplied secret".  Verification of every other password type is the
opaque parameter `verify`. -/
def passwordMatch (verify : Password → String → Bool)
    (p : Password) (secret : String) : Bool :=
  if p.pwType = some "wildcard" then true else verify p secret

/-- `type Permissions struct` — either a named permission set
(`name ≠ ""`) or an explicit capability list.  `permissions = none`
models a Go nil slice. -/
structure Permissions where
  name : String := ""
  permissions : Option (List String) := none

/-- `var permissionsMap = map[string][]string{...}`. -/
def permissionsMap (s : String) : Option (List String) :=
  if s = "op" then some ["op", "present", "token"]
  else if s = "present" then some ["present"]
  else if s = "observe" then some []
  else if s = "admin" then some ["admin"]
  else none

/-- `func NewPermissions(name string) (Permissions, error)`. -/
def NewPermissions (name : String) : Except String Permissions :=
  match permissionsMap name with
  | none => Except.error "unknown permission"
  | some _ => Except.ok { name := name }

/-- The group policy flags consulted by permission resolution; a full
`Description` is introduced later and is converted down to this record at
the call sites (the Go method takes a `*Description` but reads only these
two fields, and checks it against nil). -/
structure PolicyFlags where
  AllowRecording : Bool := false
  UnrestrictedTokens : Bool := false

/-- `func (p Permissions) Permissions(desc *Description) []string`.
`desc = none` models a nil pointer. -/
def Permissions.resolve (p : Permissions) (desc : Option PolicyFlags) :
    List String :=
  if p.name = "" then p.permissions.getD []
  else
    let perms := (permissionsMap p.name).getD []
    let op := perms.contains "op"
    let present := perms.contains "present"
    let token := perms.contains "token"
    let record := perms.contains "record"
    let perms :=
      if (desc.map (·.AllowRecording)).getD false ∧ op ∧ ¬record then
        "record" :: perms
      else perms
    let perms :=
      if (desc.map (·.UnrestrictedTokens)).getD false ∧ present ∧ ¬token then
        "token" :: perms
      else perms
    perms

/-- `type UserDescription struct` — a credential paired with a
Permission. -/
structure UserDescription where
  Password : Password := ⟨Json.null⟩
  Permissions : Permissions := {}

/-- Modelled from the spec: `ClientPattern` (an entry of the obsolete
per-role lists) is declared in a file that is not part of the sources
under verification; per the spec it carries an optional username and an
optional credential ("for each entry, if it carries a username ...; if
the username is absent ..."; entries may or may not carry a password).
`Password = none` models a Go nil pointer. -/
structure ClientPattern where
  Username : String := ""
  Password : Option Password := none

/-- `type Description struct` — a group description plus file metadata.
Go `nil` versus empty slices and maps are distinguished through
`Option`; `modTime` is the modification time in nanoseconds. -/
structure Description where
  FileName : String := ""
  modTime : Int := 0
  fileSize : Int := 0
  isSubgroup : Bool := false
  DisplayName : String := ""
  Description : String := ""
  Contact : String := ""
  Comment : String := ""
  Public : Bool := false
  Redirect : String := ""
  MaxClients : Int := 0
  MaxHistoryAge : Int := 0
  AllowRecording : Bool := false
  UnrestrictedTokens : Bool := false
  AutoSubgroups : Bool := false
  Autolock : Bool := false
  Autokick : Bool := false
  Users : Option (List (String × UserDescription)) := none
  FallbackUsers : Option (List UserDescription) := none
  AuthKeys : Option (List Json) := none
  AuthServer : String := ""
  AuthPortal : String := ""
  Codecs : Option (List String) := none
  Op : Option (List ClientPattern) := none
  Presenter : Option (List ClientPattern) := none
  Other : Option (List ClientPattern) := none
  AllowSubgroups : Bool := false
  AllowAnonymous : Bool := false

/-- The policy flags a `Description` passes to permission resolution. -/
def Description.policy (d : Galene.Description) : PolicyFlags :=
  { AllowRecording := d.AllowRecording,
    UnrestrictedTokens := d.UnrestrictedTokens }

/-! ### Legacy-schema migration (`upgradeDescription`) -/

/-- The inner `upgradePassword` closure: a missing password becomes the
wildcard password. -/
def upgradePassword (pw : Option Password) : Password :=
  match pw with
  | none => wildcardPassword
  | some p => p

/-- The inner `upgradeUser` closure. -/
def upgradeUser (u : ClientPattern) (p : String) : UserDescription :=
  { Password := upgradePassword u.Password,
    Permissions := { name := p } }

/-- One step of the loop inside `upgradeUsers`: the accumulator is the
current `(Users, FallbackUsers)` pair.  An entry without a username is
appended to `FallbackUsers`; a username already present in `Users` is
dropped (with a warning in the Go code); otherwise the entry is added to
`Users`. -/
def upgradeUsersStep (p : String)
    (acc : List (String × UserDescription) × Option (List UserDescription))
    (u : ClientPattern) :
    List (String × UserDescription) × Option (List UserDescription) :=
  if u.Username = "" then
    (acc.1, some (acc.2.getD [] ++ [upgradeUser u p]))
  else if (acc.1.lookup u.Username).isSome then
    acc
  else
    (acc.1 ++ [(u.Username, upgradeUser u p)], acc.2)

/-- The inner `upgradeUsers` closure: migrate one obsolete list `ps`
with role `p` into `desc.Users` / `desc.FallbackUsers`.  A nil `Users`
map is allocated first (`make(map[string]UserDescription)`). -/
def upgradeUsers (desc : Description) (ps : List ClientPattern)
    (p : String) : Description :=
  let acc := ps.foldl (upgradeUsersStep p) (desc.Users.getD [], desc.FallbackUsers)
  { desc with Users := some acc.1, FallbackUsers := acc.2 }

/-- `func upgradeDescription(desc *Description) error` — always returns
nil, so it is modelled as a pure function. -/
def upgradeDescription (desc : Description) : Description :=
  let desc :=
    if desc.AllowAnonymous then { desc with AllowAnonymous := false }
    else desc
  let desc :=
    if desc.AllowSubgroups then
      { desc with AutoSubgroups := true, AllowSubgroups := false }
    else desc
  let desc :=
    match desc.Op with
    | none => desc
    | some ps => { upgradeUsers desc ps "op" with Op := none }
  let desc :=
    match desc.Presenter with
    | none => desc
    | some ps => { upgradeUsers desc ps "present" with Presenter := none }
  let desc :=
    match desc.Other with
    | none => desc
    | some ps => { upgradeUsers desc ps "observe" with Other := none }
  desc

/-! ### JSON deserialisation

The decoder mirrors Go `encoding/json` on the concrete types involved:
unknown object keys are rejected (`DisallowUnknownFields` is set on every
decode path of the sources, and applies to nested structs), keys match a
field tag exactly or case-insensitively, a JSON `null` is a no-op for
built-in field types, and custom unmarshalers (`Permissions`, `Password`)
receive the raw value, `null` included. -/

/-- Unmarshalling a JSON array into `[]string`: every element must be a
string. -/
def extractStrings : List Json → Option (List String)
  | [] => some []
  | Json.str s :: rest => (extractStrings rest).map (s :: ·)
  | _ => none

/-- `func (p *Permissions) UnmarshalJSON` first tries `[]string`; a JSON
`null` unmarshals into a nil slice. -/
def decodeStringArray : Json → Option (Option (List String))
  | Json.null => some none
  | Json.arr es => (extractStrings es).map some
  | _ => none

/-- `func (p *Permissions) UnmarshalJSON(b []byte) error`. -/
def decodePermissions (j : Json) : Except String Permissions :=
  match decodeStringArray j with
  | some a => Except.ok { name := "", permissions := a }
  | none =>
      match j with
      | Json.str s =>
          if (permissionsMap s).isSome then Except.ok { name := s }
          else Except.error ("Unknown permission " ++ s)
      | _ => Except.error "invalid permission format"

/-- `func (p Permissions) MarshalJSON() ([]byte, error)`. -/
def marshalPermissions (p : Permissions) : Json :=
  if p.name ≠ "" then Json.str p.name
  else
    match p.permissions with
    | none => Json.null
    | some l => Json.arr (l.map Json.str)

/-- Go json field matching: exact tag match first, then the first tag
matching case-insensitively. -/
def canonField (known : List String) (k : String) : Option String :=
  if known.contains k then some k
  else known.find? (fun t => t.toLower = k.toLower)

def asStr : Json → Except String String
  | Json.str s => Except.ok s
  | _ => Except.error "cannot unmarshal into string"

def asBool : Json → Except String Bool
  | Json.bool b => Except.ok b
  | _ => Except.error "cannot unmarshal into bool"

def asInt : Json → Except String Int
  | Json.num n => Except.ok n
  | _ => Except.error "cannot unmarshal into int"

/-- One object field of a `UserDescription`. -/
def applyUDField (ud : UserDescription) (kv : String × Json) :
    Except String UserDescription :=
  match canonField ["password", "permissions"] kv.1 with
  | some "password" => Except.ok { ud with Password := ⟨kv.2⟩ }
  | some "permissions" =>
      (decodePermissions kv.2).map fun p => { ud with Permissions := p }
  | _ => Except.error ("unknown field " ++ kv.1)

def udFromFields (ud : UserDescription) :
    List (String × Json) → Except String UserDescription
  | [] => Except.ok ud
  | kv :: rest =>
      match applyUDField ud kv with
      | Except.ok ud' => udFromFields ud' rest
      | Except.error e => Except.error e

def decodeUserDescription (j : Json) : Except String UserDescription :=
  match j with
  | Json.null => Except.ok {}
  | Json.obj fs => udFromFields {} fs
  | _ => Except.error "cannot unmarshal into UserDescription"

/-- Decoding a JSON object into an existing Go map keeps existing entries
and overwrites on key collision. -/
def upsert {α : Type} : List (String × α) → String → α → List (String × α)
  | [], k, v => [(k, v)]
  | (k', v') :: rest, k, v =>
      if k' = k then (k, v) :: rest else (k', v') :: upsert rest k v

def decodeUsersInto (acc : List (String × UserDescription)) :
    List (String × Json) → Except String (List (String × UserDescription))
  | [] => Except.ok acc
  | (k, v) :: rest =>
      match decodeUserDescription v with
      | Except.ok ud => decodeUsersInto (upsert acc k ud) rest
      | Except.error e => Except.error e

def decodeJsonList {α : Type} (f : Json → Except String α) :
    List Json → Except String (List α)
  | [] => Except.ok []
  | j :: rest =>
      match f j with
      | Except.ok a =>
          match decodeJsonList f rest with
          | Except.ok l => Except.ok (a :: l)
          | Except.error e => Except.error e
      | Except.error e => Except.error e

/-- One object field of a `ClientPattern`; its `Password` is a pointer,
so a JSON `null` resets it to nil. -/
def applyCPField (cp : ClientPattern) (kv : String × Json) :
    Except String ClientPattern :=
  match canonField ["username", "password"] kv.1 with
  | some "username" =>
      match kv.2 with
      | Json.null => Except.ok cp
      | v => (asStr v).map fun s => { cp with Username := s }
  | some "password" =>
      match kv.2 with
      | Json.null => Except.ok { cp with Password := none }
      | v => Except.ok { cp with Password := some ⟨v⟩ }
  | _ => Except.error ("unknown field " ++ kv.1)

def cpFromFields (cp : ClientPattern) :
    List (String × Json) → Except String ClientPattern
  | [] => Except.ok cp
  | kv :: rest =>
      match applyCPField cp kv with
      | Except.ok cp' => cpFromFields cp' rest
      | Except.error e => Except.error e

def decodeClientPattern (j : Json) : Except String ClientPattern :=
  match j with
  | Json.null => Except.ok {}
  | Json.obj fs => cpFromFields {} fs
  | _ => Except.error "cannot unmarshal into ClientPattern"

/-- An `authKeys` element decodes into `map[string]interface{}`: only an
object or `null` is accepted, and the document is kept verbatim. -/
def decodeAuthKey (j : Json) : Except String Json :=
  match j with
  | Json.obj _ => Except.ok j
  | Json.null => Except.ok j
  | _ => Except.error "cannot unmarshal into map"

/-- The json tags of `Description`, in struct order; `json:"-"` fields do
not take part in (de)serialisation. -/
def descKeys : List String :=
  ["displayName", "description", "contact", "comment", "public",
   "redirect", "max-clients", "max-history-age", "allow-recording",
   "unrestricted-tokens", "auto-subgroups", "autolock", "autokick",
   "users", "fallback-users", "authKeys", "authServer", "authPortal",
   "codecs", "op", "presenter", "other", "allow-subgroups",
   "allow-anonymous"]

/-- One object field of a `Description`. -/
def applyDescField (d : Description) (kv : String × Json) :
    Except String Description :=
  match canonField descKeys kv.1 with
  | none => Except.error ("unknown field " ++ kv.1)
  | some key =>
      match key, kv.2 with
      | _, Json.null => Except.ok d
      | "displayName", v => (asStr v).map fun s => { d with DisplayName := s }
      | "description", v => (asStr v).map fun s => { d with Description := s }
      | "contact", v => (asStr v).map fun s => { d with Contact := s }
      | "comment", v => (asStr v).map fun s => { d with Comment := s }
      | "public", v => (asBool v).map fun b => { d with Public := b }
      | "redirect", v => (asStr v).map fun s => { d with Redirect := s }
      | "max-clients", v => (asInt v).map fun n => { d with MaxClients := n }
      | "max-history-age", v =>
          (asInt v).map fun n => { d with MaxHistoryAge := n }
      | "allow-recording", v =>
          (asBool v).map fun b => { d with AllowRecording := b }
      | "unrestricted-tokens", v =>
          (asBool v).map fun b => { d with UnrestrictedTokens := b }
      | "auto-subgroups", v =>
          (asBool v).map fun b => { d with AutoSubgroups := b }
      | "autolock", v => (asBool v).map fun b => { d with Autolock := b }
      | "autokick", v => (asBool v).map fun b => { d with Autokick := b }
      | "users", v =>
          match v with
          | Json.obj fs =>
              (decodeUsersInto (d.Users.getD []) fs).map
                fun l => { d with Users := some l }
          | _ => Except.error "cannot unmarshal into map"
      | "fallback-users", v =>
          match v with
          | Json.arr es =>
              (decodeJsonList decodeUserDescription es).map
                fun l => { d with FallbackUsers := some l }
          | _ => Except.error "cannot unmarshal into slice"
      | "authKeys", v =>
          match v with
          | Json.arr es =>
              (decodeJsonList decodeAuthKey es).map
                fun l => { d with AuthKeys := some l }
          | _ => Except.error "cannot unmarshal into slice"
      | "authServer", v => (asStr v).map fun s => { d with AuthServer := s }
      | "authPortal", v => (asStr v).map fun s => { d with AuthPortal := s }
      | "codecs", v =>
          match v with
          | Json.arr es =>
              (decodeJsonList asStr es).map fun l => { d with Codecs := some l }
          | _ => Except.error "cannot unmarshal into slice"
      | "op", v =>
          match v with
          | Json.arr es =>
              (decodeJsonList decodeClientPattern es).map
                fun l => { d with Op := some l }
          | _ => Except.error "cannot unmarshal into slice"
      | "presenter", v =>
          match v with
          | Json.arr es =>
              (decodeJsonList decodeClientPattern es).map
                fun l => { d with Presenter := some l }
          | _ => Except.error "cannot unmarshal into slice"
      | "other", v =>
          match v with
          | Json.arr es =>
              (decodeJsonList decodeClientPattern es).map
                fun l => { d with Other := some l }
          | _ => Except.error "cannot unmarshal into slice"
      | "allow-subgroups", v =>
          (asBool v).map fun b => { d with AllowSubgroups := b }
      | "allow-anonymous", v =>
          (asBool v).map fun b => { d with AllowAnonymous := b }
      | _, _ => Except.error ("unknown field " ++ kv.1)

def descFromFields (d : Description) :
    List (String × Json) → Except String Description
  | [] => Except.ok d
  | kv :: rest =>
      match applyDescField d kv with
      | Except.ok d' => descFromFields d' rest
      | Except.error e => Except.error e

/-- Strict decoding of a `Description` document (`DisallowUnknownFields`
is set by every decode path of the sources). -/
def unmarshalDescription (j : Json) : Except String Description :=
  match j with
  | Json.null => Except.ok {}
  | Json.obj fs => descFromFields {} fs
  | _ => Except.error "cannot unmarshal into Description"

/-! ### JSON serialisation -/

/-- `omitempty` on a string field. -/
def omitStr (k : String) (v : String) : List (String × Json) :=
  if v = "" then [] else [(k, Json.str v)]

/-- `omitempty` on a bool field. -/
def omitBool (k : String) (b : Bool) : List (String × Json) :=
  if b then [(k, Json.bool true)] else []

/-- `omitempty` on an int field. -/
def omitInt (k : String) (n : Int) : List (String × Json) :=
  if n = 0 then [] else [(k, Json.num n)]

/-- `omitempty` on a slice field: nil and empty both serialise to
nothing. -/
def omitList {α : Type} (k : String) (enc : α → Json)
    (o : Option (List α)) : List (String × Json) :=
  match o with
  | none => []
  | some [] => []
  | some l => [(k, Json.arr (l.map enc))]

def marshalUserDescription (ud : UserDescription) : Json :=
  Json.obj [("password", ud.Password.raw),
            ("permissions", marshalPermissions ud.Permissions)]

def marshalClientPattern (cp : ClientPattern) : Json :=
  Json.obj
    (omitStr "username" cp.Username ++
      (match cp.Password with
       | none => []
       | some p => [("password", p.raw)]))

/-- Lexicographic comparison of code-point sequences (the order Go map
serialisation sorts string keys by). -/
def charsLt : List Char → List Char → Bool
  | [], _ :: _ => true
  | _, [] => false
  | a :: as, b :: bs =>
      if a.toNat < b.toNat then true
      else if b.toNat < a.toNat then false
      else charsLt as bs

def strLt (a b : String) : Bool := charsLt a.toList b.toList

/-- Go maps serialise with their keys in sorted order. -/
def insertByKey {α : Type} (x : String × α) :
    List (String × α) → List (String × α)
  | [] => [x]
  | y :: rest =>
      if strLt x.1 y.1 then x :: y :: rest else y :: insertByKey x rest

def sortByKey {α : Type} (l : List (String × α)) : List (String × α) :=
  l.foldr insertByKey []

/-- `omitempty` on the `users` map. -/
def omitUsers (k : String)
    (o : Option (List (String × UserDescription))) : List (String × Json) :=
  match o with
  | none => []
  | some [] => []
  | some l =>
      [(k, Json.obj ((sortByKey l).map fun kv =>
          (kv.1, marshalUserDescription kv.2)))]

/-- Serialisation of a `Description`: the reflective Go encoder emits the
tagged fields in struct order, honouring `omitempty`; `json:"-"` fields
are skipped. -/
def marshalDescription (d : Description) : Json :=
  Json.obj
    (omitStr "displayName" d.DisplayName ++
     omitStr "description" d.Description ++
     omitStr "contact" d.Contact ++
     omitStr "comment" d.Comment ++
     omitBool "public" d.Public ++
     omitStr "redirect" d.Redirect ++
     omitInt "max-clients" d.MaxClients ++
     omitInt "max-history-age" d.MaxHistoryAge ++
     omitBool "allow-recording" d.AllowRecording ++
     omitBool "unrestricted-tokens" d.UnrestrictedTokens ++
     omitBool "auto-subgroups" d.AutoSubgroups ++
     omitBool "autolock" d.Autolock ++
     omitBool "autokick" d.Autokick ++
     omitUsers "users" d.Users ++
     omitList "fallback-users" marshalUserDescription d.FallbackUsers ++
     omitList "authKeys" id d.AuthKeys ++
     omitStr "authServer" d.AuthServer ++
     omitStr "authPortal" d.AuthPortal ++
     omitList "codecs" Json.str d.Codecs ++
     omitList "op" marshalClientPattern d.Op ++
     omitList "presenter" marshalClientPattern d.Presenter ++
     omitList "other" marshalClientPattern d.Other ++
     omitBool "allow-subgroups" d.AllowSubgroups ++
     omitBool "allow-anonymous" d.AllowAnonymous)

/-! ### Paths (`path.Clean`, `path.Join`, `path.Split`) -/

/-- Split a character sequence at every `/` (the behaviour of
`strings.Split(s, "/")`). -/
def splitSlash : List Char → List (List Char)
  | [] => [[]]
  | c :: rest =>
      match splitSlash rest with
      | s :: ss => if c = '/' then [] :: s :: ss else (c :: s) :: ss
      | [] => [[c]]

/-- One segment step of `path.Clean`: process segment `seg` against the
stack of output segments.  `""` and `"."` are dropped; `".."` pops (in a
rooted path it is dropped at the root; in a relative path it accumulates
once nothing is left to pop); anything else is pushed. -/
def cleanStack (rooted : Bool) (st : List (List Char)) (seg : List Char) :
    List (List Char) :=
  if seg = [] ∨ seg = ['.'] then st
  else if seg = ['.', '.'] then
    if rooted then st.dropLast
    else if st ≠ [] ∧ st.getLast? ≠ some ['.', '.'] then st.dropLast
    else st ++ [seg]
  else st ++ [seg]

/-- Join segments with `/`. -/
def joinSlash : List (List Char) → List Char
  | [] => []
  | [s] => s
  | s :: rest => s ++ '/' :: joinSlash rest

/-- Go `path.Clean` (equivalently `filepath.Clean` with `/` separators),
on character lists. -/
def cleanChars (cs : List Char) : List Char :=
  if cs = [] then ['.']
  else
    let rooted := cs.head? = some '/'
    let st := (splitSlash cs).foldl (cleanStack rooted) []
    let joined := joinSlash st
    if rooted then '/' :: joined
    else if joined = [] then ['.'] else joined

/-- Go `path.Clean` on strings. -/
def pathClean (p : String) : String :=
  String.mk (cleanChars p.toList)

/-- Go `path.Join` on two elements (`filepath.Join` behaves identically
on slash-separated paths): empty elements are skipped and the result is
cleaned. -/
def pathJoin (a b : String) : String :=
  if a = "" ∧ b = "" then ""
  else if a = "" then pathClean b
  else if b = "" then pathClean a
  else pathClean (a ++ "/" ++ b)

/-- `filepath.Join(Directory, path.Clean("/"+name)+".json")` — the
configuration file that would store group `name` directly. -/
def descriptionPath (dir name : String) : String :=
  pathJoin dir (pathClean ("/" ++ name) ++ ".json")

/-- `name, _ = path.Split(name); name = strings.TrimRight(name, "/")` —
the parent of a group name. -/
def parentChars (cs : List Char) : List Char :=
  (((cs.reverse).dropWhile (fun c => c ≠ '/')).dropWhile
      (fun c => c = '/')).reverse

def parentName (name : String) : String :=
  String.mk (parentChars name.toList)

/-- `parentChars` strictly shortens a non-empty name; this makes the
resolution walk of `getDescriptionFile` terminate. -/
def parentChars_length_lt (cs : List Char) (h : cs ≠ []) :
    (parentChars cs).length < cs.length := by
  obtain ⟨a, t, hr⟩ : ∃ a t, cs.reverse = a :: t := by
    rcases hr : cs.reverse with _ | ⟨a, t⟩
    · exact absurd (by simpa using congrArg List.reverse hr) h
    · exact ⟨a, t, rfl⟩
  have hlen : cs.length = t.length + 1 := by
    have := congrArg List.length hr
    simpa [List.length_reverse] using this
  unfold parentChars
  rw [hr]
  by_cases ha : a = '/'
  · have h1 : List.dropWhile (fun c => c ≠ '/') (a :: t) = a :: t := by
      simp [List.dropWhile, ha]
    rw [h1]
    have h2 : List.dropWhile (fun c => c = '/') (a :: t)
        = List.dropWhile (fun c => c = '/') t := by
      simp [List.dropWhile, ha]
    rw [h2]
    calc (List.dropWhile (fun c => c = '/') t).reverse.length
        = (List.dropWhile (fun c => c = '/') t).length := by
          simp [List.length_reverse]
      _ ≤ t.length := (List.dropWhile_sublist _).length_le
      _ < cs.length := by omega
  · have h1 : List.dropWhile (fun c => c ≠ '/') (a :: t)
        = List.dropWhile (fun c => c ≠ '/') t := by
      simp [List.dropWhile, ha]
    rw [h1]
    calc (List.dropWhile (fun c => c = '/')
            (List.dropWhile (fun c => c ≠ '/') t)).reverse.length
        ≤ (List.dropWhile (fun c => c ≠ '/') t).length := by
          simpa [List.length_reverse] using
            (List.dropWhile_sublist (l := List.dropWhile (fun c => c ≠ '/') t)
              (fun c => c = '/')).length_le
      _ ≤ t.length := (List.dropWhile_sublist _).length_le
      _ < cs.length := by omega

/-! ### The file system model and the description store -/

/-- One stored file: its stat metadata (size and modification time in
nanoseconds) and its parsed JSON content. -/
structure File where
  size : Int
  modTime : Int
  content : Json

/-- The file system: an association list from paths to files. -/
def FS : Type := List (String × File)

def fsGet (fs : FS) (p : String) : Option File :=
  (List.lookup p (fs : List (String × File)))

def fsSet (fs : FS) (p : String) (f : File) : FS :=
  upsert (fs : List (String × File)) p f

def fsRemove (fs : FS) (p : String) : FS :=
  (fs : List (String × File)).filter (fun kv => kv.1 ≠ p)

/-- Errors of the store; `ioError` stands for an injected operating
system failure during the write sequence. -/
inductive StoreErr where
  | notExist : StoreErr
  | tagMismatch : StoreErr
  | notSanitised : StoreErr
  | badDescription : StoreErr
  | ioError : StoreErr
deriving DecidableEq

/-- `func getDescriptionFile[T any](name string, get func(string) (T,
error)) (T, string, bool, error)`: walk from the full name upward until a
file exists; the boolean records whether the match was at a strict
ancestor. -/
def getDescriptionFileAux (dir : String) (fs : FS) :
    Nat → List Char → Bool → Except StoreErr (File × String × Bool)
  | _, [], _ => Except.error StoreErr.notExist
  | 0, _ :: _, _ => Except.error StoreErr.notExist
  | fuel + 1, c :: rest, isParent =>
      let fileName := descriptionPath dir (String.mk (c :: rest))
      match fsGet fs fileName with
      | some f => Except.ok (f, fileName, isParent)
      | none =>
          getDescriptionFileAux dir fs fuel (parentChars (c :: rest)) true

/-- The resolution walk.  The fuel `name.toList.length` is an upper bound
on the number of iterations: by `parentChars_length_lt`, each step of the
Go loop strictly shortens the name, so the fuel-exhausted branch of
`getDescriptionFileAux` is never taken and the function computes exactly
the loop of `getDescriptionFile` in the source. -/
def getDescriptionFile (dir : String) (fs : FS) (name : String) :
    Except StoreErr (File × String × Bool) :=
  getDescriptionFileAux dir fs name.toList.length name.toList false

/-- `func makeETag(fileSize int64, modTime time.Time) string`. -/
def makeETag (fileSize : Int) (modTime : Int) : String :=
  "\"" ++ toString fileSize ++ "-" ++ toString modTime ++ "\""

/-- `func readDescription(name string) (*Description, error)`. -/
def readDescription (dir : String) (fs : FS) (name : String) :
    Except StoreErr Description :=
  match getDescriptionFile dir fs name with
  | Except.error e => Except.error e
  | Except.ok (f, fileName, isParent) =>
      match unmarshalDescription f.content with
      | Except.error _ => Except.error StoreErr.badDescription
      | Except.ok desc =>
          if isParent ∧ ¬desc.AutoSubgroups then Except.error StoreErr.notExist
          else
            let desc :=
              if isParent then
                { desc with isSubgroup := true, Public := false,
                            Description := "" }
              else desc
            Except.ok (upgradeDescription
              { desc with FileName := fileName, fileSize := f.size,
                          modTime := f.modTime })

/-- `func DeleteDescription(name, etag string) error` (the global
mutation lock makes it a sequential state transformer here). -/
def DeleteDescription (dir : String) (fs : FS) (name etag : String) :
    Except StoreErr Unit × FS :=
  match getDescriptionFile dir fs name with
  | Except.error e => (Except.error e, fs)
  | Except.ok (fi, fileName, isParent) =>
      if isParent then (Except.error StoreErr.notExist, fs)
      else if etag ≠ makeETag fi.size fi.modTime then
        (Except.error StoreErr.tagMismatch, fs)
      else (Except.ok (), fsRemove fs fileName)

/-- Injected nondeterminism for one update: the name `os.CreateTemp`
picks, the stat metadata the written file ends up with, and which of the
five fallible steps succeed. -/
structure WriteEnv where
  tempName : String
  newSize : Int
  newModTime : Int
  createTempOk : Bool := true
  encodeOk : Bool := true
  syncOk : Bool := true
  closeOk : Bool := true
  renameOk : Bool := true

/-- `os.CreateTemp` rejects any pattern that contains a path separator
(`errPatternHasSeparator` in Go's `os/tempfile.go`), before touching the
filesystem. -/
def patternHasSeparator (pattern : String) : Bool :=
  pattern.toList.contains '/'

/-- The temp-write/fsync/close/rename block of `UpdateDescription`
(lines `os.CreateTemp` through `os.Rename`): serialize `newdesc` to a
fresh temporary file, sync, close, and rename it over `filename`; every
failure removes the temporary file.  The pattern handed to
`os.CreateTemp` is `name + "*.temp"`, so a name containing a path
separator makes `os.CreateTemp` fail deterministically; the env flag
injects its other (I/O) failures. -/
def writeDescription (env : WriteEnv) (fs : FS) (name filename : String)
    (newdesc : Description) : Except StoreErr Unit × FS :=
  if patternHasSeparator (name ++ "*.temp") ∨ ¬env.createTempOk then
    (Except.error StoreErr.ioError, fs)
  else
    let temp := env.tempName
    let fs1 := fsSet fs temp ⟨0, env.newModTime, Json.null⟩
    if ¬env.encodeOk then
      (Except.error StoreErr.ioError, fsRemove fs1 temp)
    else
      let written : File :=
        ⟨env.newSize, env.newModTime, marshalDescription newdesc⟩
      let fs2 := fsSet fs1 temp written
      if ¬env.syncOk then
        (Except.error StoreErr.ioError, fsRemove fs2 temp)
      else if ¬env.closeOk then
        (Except.error StoreErr.ioError, fsRemove fs2 temp)
      else if ¬env.renameOk then
        (Except.error StoreErr.ioError, fsRemove fs2 temp)
      else (Except.ok (), fsSet (fsRemove fs2 temp) filename written)

/-- The secret-preserving merge of `UpdateDescription`: the stored
document keeps `Users`, `FallbackUsers` and `AuthKeys` of the prior
version when one exists. -/
def mergeDescription (desc : Description) (old : Option Description) :
    Description :=
  match old with
  | some o =>
      { desc with
        Users := o.Users
        FallbackUsers := o.FallbackUsers
        AuthKeys := o.AuthKeys }
  | none => desc

/-- `func UpdateDescription(name, etag string, desc *Description) error`
(under the global mutation lock). -/
def UpdateDescription (dir : String) (env : WriteEnv) (fs : FS)
    (name etag : String) (desc : Description) :
    Except StoreErr Unit × FS :=
  if desc.Users.isSome ∨ desc.FallbackUsers.isSome ∨ desc.AuthKeys.isSome
  then (Except.error StoreErr.notSanitised, fs)
  else
    match readDescription dir fs name with
    | Except.ok old =>
        if makeETag old.fileSize old.modTime ≠ etag then
          (Except.error StoreErr.tagMismatch, fs)
        else
          writeDescription env fs name old.FileName
            (mergeDescription desc (some old))
    | Except.error StoreErr.notExist =>
        if "" ≠ etag then (Except.error StoreErr.tagMismatch, fs)
        else
          writeDescription env fs name (descriptionPath dir name)
            (mergeDescription desc none)
    | Except.error e => (Except.error e, fs)

/-! ### Validity of a `Description` value

A `Description` is a faithful image of a JSON document when its runtime
metadata is zero, no collection is a non-nil empty Go slice or map
(`omitempty` erases the nil / empty distinction), the users map is in the
canonical sorted order Go map serialisation produces, every stored
permission is either explicit or a known role name, and every `authKeys`
entry is a JSON object (or null). -/

def validPermissionsB (p : Permissions) : Bool :=
  if p.name = "" then true
  else (permissionsMap p.name).isSome && p.permissions.isNone

def validUserB (ud : UserDescription) : Bool :=
  validPermissionsB ud.Permissions

/-- An obsolete-list entry survives a round trip when its optional
credential is not the literal JSON `null` (a nil pointer decodes from
`null`, so such a credential cannot be distinguished after decoding). -/
def validCP (cp : ClientPattern) : Bool :=
  match cp.Password with
  | some ⟨Json.null⟩ => false
  | _ => true

/-- Not a non-nil empty collection. -/
def notEmptySome {α : Type} : Option (List α) → Bool
  | some [] => false
  | _ => true

def strictSortedKeys {α : Type} : List (String × α) → Bool
  | [] => true
  | [_] => true
  | a :: b :: rest => strLt a.1 b.1 && strictSortedKeys (b :: rest)

def objOrNull : Json → Bool
  | Json.obj _ => true
  | Json.null => true
  | _ => false

def validDescription (d : Description) : Bool :=
  d.FileName = "" && d.modTime = 0 && d.fileSize = 0 && !d.isSubgroup &&
  notEmptySome d.Users &&
  strictSortedKeys (d.Users.getD []) &&
  (d.Users.getD []).all (fun kv => validUserB kv.2) &&
  notEmptySome d.FallbackUsers &&
  (d.FallbackUsers.getD []).all validUserB &&
  notEmptySome d.AuthKeys &&
  (d.AuthKeys.getD []).all objOrNull &&
  notEmptySome d.Codecs &&
  notEmptySome d.Op && (d.Op.getD []).all validCP &&
  notEmptySome d.Presenter && (d.Presenter.getD []).all validCP &&
  notEmptySome d.Other && (d.Other.getD []).all validCP

/-- A sample configuration used to instantiate the round-trip theorem:
it exercises the named-role and explicit-list permission forms, users,
fallback users, auth keys, codecs and an obsolete pattern list. -/
def sampleDescription : Description :=
  { DisplayName := "Test group",
    MaxHistoryAge := 10,
    Public := true,
    Users := some
      [("james", { Password := ⟨Json.str "secret2"⟩,
                   Permissions := { name := "observe" } }),
       ("jch", { Password := ⟨Json.str "topsecret"⟩,
                 Permissions := { name := "op" } })],
    FallbackUsers := some
      [{ Password := ⟨Json.obj [("type", Json.str "wildcard")]⟩,
         Permissions := { name := "", permissions := some [] } }],
    AuthKeys := some [Json.obj [("alg", Json.str "ES256")]],
    Codecs := some ["vp8", "opus"],
    Op := some [{ Username := "x", Password := some ⟨Json.str "pw"⟩ }],
    AllowSubgroups := true }

/-- A store holding one ancestor file with `auto-subgroups` set. -/
def autoSubFS : FS :=
  [("groups/g.json", ⟨10, 100, Json.obj
      [("auto-subgroups", Json.bool true),
       ("displayName", Json.str "G")]⟩)]

/-- A store holding one ancestor file that sets only the obsolete
`allow-subgroups` flag. -/
def obsoleteSubFS : FS :=
  [("groups/g.json", ⟨5, 7, Json.obj
      [("allow-subgroups", Json.bool true)]⟩)]

/-- The file path an update of `name` writes to: the backing file of the
existing description when one resolves, else the file for `name` itself
(mirrors the branch at the top of `UpdateDescription`). -/
def updateTargetPath (dir : String) (fs : FS) (name : String) :
    Option String :=
  match readDescription dir fs name with
  | Except.ok old => some old.FileName
  | Except.error StoreErr.notExist => some (descriptionPath dir name)
  | Except.error _ => none

/-- A store with an `AutoSubgroups` ancestor file and a subgroup file of
its own. -/
def deepSubFS : FS :=
  [("groups/g.json", ⟨10, 100, Json.obj
      [("auto-subgroups", Json.bool true)]⟩),
   ("groups/g/sub.json", ⟨2, 3, Json.obj
      [("public", Json.bool true)]⟩)]

/-! ## Theorems -/

/-- C4: `Permissions.Permissions` returns an explicit capability list
unchanged (never augmented, even if it contains "op" or "present"); for a
named role it returns the fixed base set, prepending "record" exactly when
the base contains "op" but not "record" and `AllowRecording` is set, and
prepending "token" exactly when the base contains "present" but not
"token" and `UnrestrictedTokens` is set, independently; in particular op
resolves to `[op, present, token]`, gains "record" under
`AllowRecording`, "present" gains "token" under `UnrestrictedTokens`, and
"observe" always resolves to the empty list. -/
theorem c4_permission_resolution :
    (∀ (o : Option (List String)) (g : Option PolicyFlags),
        Permissions.resolve { name := "", permissions := o } g = o.getD []) ∧
    (∀ (r : String) (o : Option (List String)) (g : PolicyFlags),
      Permissions.resolve { name := r, permissions := o } (some g) =
        (if r = "" then o.getD []
         else
           let base := (permissionsMap r).getD []
           let base1 :=
             if g.AllowRecording ∧ base.contains "op" ∧
                 ¬base.contains "record" then
               "record" :: base
             else base
           if g.UnrestrictedTokens ∧ base.contains "present" ∧
               ¬base.contains "token" then
             "token" :: base1
           else base1)) ∧
    Permissions.resolve { name := "op" } (some {}) =
      ["op", "present", "token"] ∧
    Permissions.resolve { name := "op" } (some { AllowRecording := true }) =
      ["record", "op", "present", "token"] ∧
    Permissions.resolve { name := "op" }
        (some { AllowRecording := true, UnrestrictedTokens := true }) =
      ["record", "op", "present", "token"] ∧
    Permissions.resolve { name := "present" }
        (some { UnrestrictedTokens := true }) =
      ["token", "present"] ∧
    (∀ (a u : Bool),
      Permissions.resolve { name := "observe" }
        (some { AllowRecording := a, UnrestrictedTokens := u }) = []) := by
  refine ⟨fun o g => by simp [Permissions.resolve],
          fun r o g => ?_, by decide, by decide, by decide, by decide,
          fun a u => by cases a <;> cases u <;> decide⟩
  by_cases h : r = "" <;> simp [Permissions.resolve, h]

/-- C7: the legacy-schema migration is idempotent — a second application
of `upgradeDescription` produces no further change, because the obsolete
fields (op/presenter/other lists, allow-subgroups, allow-anonymous) are
empty after the first application. -/
theorem c7_upgrade_idempotent (d : Description) :
    upgradeDescription (upgradeDescription d) = upgradeDescription d := by
  cases hA : d.AllowAnonymous <;> cases hS : d.AllowSubgroups <;>
    rcases hOp : d.Op with _ | ps₁ <;>
    rcases hP : d.Presenter with _ | ps₂ <;>
    rcases hO : d.Other with _ | ps₃ <;>
    simp [upgradeDescription, upgradeUsers, hA, hS, hOp, hP, hO]

/-- C10: during legacy migration, an obsolete-list entry whose password
field is absent is converted into a `UserDescription` whose credential is
the password of type "wildcard", which verifies against any supplied
secret; an entry carrying a password keeps that password verbatim. -/
theorem c10_wildcard_migration :
    (∀ (u : ClientPattern) (p : String), u.Password = none →
        (upgradeUser u p).Password = wildcardPassword) ∧
    (∀ (u : ClientPattern) (p : String) (pw : Password),
        u.Password = some pw → (upgradeUser u p).Password = pw) ∧
    (∀ (verify : Password → String → Bool) (secret : String),
        passwordMatch verify wildcardPassword secret = true) :=
  ⟨fun u p h => by simp [upgradeUser, upgradePassword, h],
   fun u p pw h => by simp [upgradeUser, upgradePassword, h],
   fun verify secret => by
     simp [passwordMatch, wildcardPassword, Password.pwType]⟩

/-- Witness for C10 at concrete inputs. -/
theorem c10_wildcard_migration_witness :
    (upgradeUser { Username := "x" } "op").Password = wildcardPassword ∧
    (upgradeUser { Username := "x", Password := some ⟨Json.str "s"⟩ }
        "op").Password = ⟨Json.str "s"⟩ ∧
    passwordMatch (fun _ _ => false) wildcardPassword "secret" = true :=
  ⟨c10_wildcard_migration.1 { Username := "x" } "op" rfl,
   c10_wildcard_migration.2.1
     { Username := "x", Password := some ⟨Json.str "s"⟩ } "op"
     ⟨Json.str "s"⟩ rfl,
   c10_wildcard_migration.2.2 (fun _ _ => false) "secret"⟩

/-! ### Round-trip lemmas for the JSON embedding (claim C8) -/

theorem extractStrings_map (l : List String) :
    extractStrings (l.map Json.str) = some l := by
  induction l with
  | nil => rfl
  | cons a t ih => simp [extractStrings, ih]

theorem decodePermissions_roundtrip (p : Permissions)
    (h : validPermissionsB p = true) :
    decodePermissions (marshalPermissions p) = Except.ok p := by
  rcases p with ⟨n, o⟩
  by_cases hn : n = ""
  · subst hn
    rcases o with _ | l
    · rfl
    · simp [marshalPermissions, decodePermissions, decodeStringArray,
        extractStrings_map]
  · simp only [validPermissionsB, if_neg hn, Bool.and_eq_true,
      Option.isNone_iff_eq_none] at h
    obtain ⟨h1, h2⟩ := h
    subst h2
    simp [marshalPermissions, hn, decodePermissions, decodeStringArray, h1]

theorem decodeUD_roundtrip (ud : UserDescription)
    (h : validUserB ud = true) :
    decodeUserDescription (marshalUserDescription ud) = Except.ok ud := by
  rcases ud with ⟨⟨praw⟩, pm⟩
  have h2 : decodePermissions (marshalPermissions pm) = Except.ok pm :=
    decodePermissions_roundtrip pm h
  simp [marshalUserDescription, decodeUserDescription, udFromFields,
    applyUDField, canonField, h2, Except.map]

theorem decodeJsonList_roundtrip {α : Type} (f : Json → Except String α)
    (enc : α → Json) (l : List α)
    (H : ∀ a ∈ l, f (enc a) = Except.ok a) :
    decodeJsonList f (l.map enc) = Except.ok l := by
  induction l with
  | nil => rfl
  | cons a t ih =>
      simp only [List.map_cons, decodeJsonList, H a (by simp)]
      rw [ih (fun b hb => H b (by simp [hb]))]

theorem decodeCP_roundtrip (cp : ClientPattern) (h : validCP cp = true) :
    decodeClientPattern (marshalClientPattern cp) = Except.ok cp := by
  rcases cp with ⟨u, pw⟩
  rcases pw with _ | ⟨⟨praw⟩⟩
  · by_cases hu : u = "" <;>
      simp [marshalClientPattern, omitStr, hu, decodeClientPattern,
        cpFromFields, applyCPField, canonField, asStr, Except.map]
  · by_cases hu : u = "" <;> cases praw <;>
      simp_all [validCP, marshalClientPattern, omitStr, hu,
        decodeClientPattern, cpFromFields, applyCPField, canonField,
        asStr, Except.map]

theorem decodeAuthKey_id (j : Json) (h : objOrNull j = true) :
    decodeAuthKey j = Except.ok j := by
  cases j <;> simp_all [objOrNull, decodeAuthKey]

theorem upsert_of_not_mem {α : Type} (acc : List (String × α))
    (k : String) (v : α) (h : ∀ p ∈ acc, p.1 ≠ k) :
    upsert acc k v = acc ++ [(k, v)] := by
  induction acc with
  | nil => rfl
  | cons kv rest ih =>
      rcases kv with ⟨k', v'⟩
      have hk : k' ≠ k := h (k', v') (by simp)
      simp only [upsert, if_neg hk, List.cons_append]
      rw [ih (fun p hp => h p (by simp [hp]))]

theorem charsLt_irrefl (l : List Char) : charsLt l l = false := by
  induction l with
  | nil => rfl
  | cons a t ih => simp [charsLt, Nat.lt_irrefl, ih]

theorem charsLt_trans (a b c : List Char) (hab : charsLt a b = true)
    (hbc : charsLt b c = true) : charsLt a c = true := by
  induction a generalizing b c with
  | nil =>
      cases c with
      | nil =>
          cases b with
          | nil => simp [charsLt] at hab
          | cons y ys => simp [charsLt] at hbc
      | cons z zs => simp [charsLt]
  | cons x xs ih =>
      cases b with
      | nil => simp [charsLt] at hab
      | cons y ys =>
          cases c with
          | nil => simp [charsLt] at hbc
          | cons z zs =>
              simp only [charsLt] at hab hbc ⊢
              by_cases h1 : x.toNat < y.toNat
              · by_cases h2 : y.toNat < z.toNat
                · have hx : x.toNat < z.toNat := by omega
                  simp [hx]
                · by_cases h4 : z.toNat < y.toNat
                  · simp [h2, h4] at hbc
                  · have hx : x.toNat < z.toNat := by omega
                    simp [hx]
              · by_cases h3 : y.toNat < x.toNat
                · simp [h1, h3] at hab
                · simp only [if_neg h1, if_neg h3] at hab
                  by_cases h2 : y.toNat < z.toNat
                  · have hx : x.toNat < z.toNat := by omega
                    simp [hx]
                  · by_cases h4 : z.toNat < y.toNat
                    · simp [h2, h4] at hbc
                    · simp only [if_neg h2, if_neg h4] at hbc
                      have hx : ¬x.toNat < z.toNat := by omega
                      have hz : ¬z.toNat < x.toNat := by omega
                      simp only [if_neg hx, if_neg hz]
                      exact ih ys zs hab hbc

theorem strLt_trans (a b c : String) (hab : strLt a b = true)
    (hbc : strLt b c = true) : strLt a c = true :=
  charsLt_trans a.toList b.toList c.toList hab hbc

theorem strLt_ne (a b : String) (h : strLt a b = true) : a ≠ b := by
  intro he
  subst he
  rw [strLt, charsLt_irrefl] at h
  exact Bool.false_ne_true h

theorem strictSortedKeys_head {α : Type} (x : String × α)
    (l : List (String × α)) (h : strictSortedKeys (x :: l) = true) :
    ∀ y ∈ l, strLt x.1 y.1 = true := by
  induction l generalizing x with
  | nil => simp
  | cons y t ih =>
      simp only [strictSortedKeys, Bool.and_eq_true] at h
      intro z hz
      rcases List.mem_cons.mp hz with hz | hz
      · subst hz; exact h.1
      · refine strLt_trans x.1 y.1 z.1 h.1 ?_
        have := ih y (by
          have := h.2
          simpa [strictSortedKeys] using this) z hz
        exact this

theorem strictSortedKeys_tail {α : Type} (x : String × α)
    (l : List (String × α)) (h : strictSortedKeys (x :: l) = true) :
    strictSortedKeys l = true := by
  cases l with
  | nil => rfl
  | cons y t =>
      simp only [strictSortedKeys, Bool.and_eq_true] at h
      exact h.2

theorem sortByKey_sorted_id {α : Type} (l : List (String × α))
    (h : strictSortedKeys l = true) : sortByKey l = l := by
  induction l with
  | nil => rfl
  | cons x t ih =>
      have ht := strictSortedKeys_tail x t h
      have hstep : sortByKey (x :: t) = insertByKey x (sortByKey t) := rfl
      rw [hstep, ih ht]
      cases t with
      | nil => rfl
      | cons y r =>
          have hxy : strLt x.1 y.1 = true :=
            strictSortedKeys_head x (y :: r) h y (by simp)
          simp [insertByKey, hxy]

theorem decodeUsersInto_roundtrip (acc l : List (String × UserDescription))
    (hdisj : ∀ kv ∈ l, ∀ p ∈ acc, p.1 ≠ kv.1)
    (hs : strictSortedKeys l = true)
    (hv : l.all (fun kv => validUserB kv.2) = true) :
    decodeUsersInto acc
        (l.map fun kv => (kv.1, marshalUserDescription kv.2))
      = Except.ok (acc ++ l) := by
  induction l generalizing acc with
  | nil => simp [decodeUsersInto]
  | cons kv t ih =>
      rcases kv with ⟨k, v⟩
      simp only [List.all_cons, Bool.and_eq_true] at hv
      simp only [List.map_cons, decodeUsersInto, decodeUD_roundtrip v hv.1]
      rw [upsert_of_not_mem acc k v
        (fun p hp => hdisj (k, v) (by simp) p hp)]
      rw [ih (acc ++ [(k, v)])
          (by
            intro kv' hkv' p hp
            rcases List.mem_append.mp hp with h1 | h2
            · exact hdisj kv' (by simp [hkv']) p h1
            · have hpv : p = (k, v) := by simpa using h2
              subst hpv
              exact strLt_ne k kv'.1
                (strictSortedKeys_head (k, v) t hs kv' hkv'))
          (strictSortedKeys_tail (k, v) t hs) hv.2]
      simp

theorem stepDisplayName (d0 : Description) (v : String)
    (rest : List (String × Json)) :
    descFromFields d0 (omitStr "displayName" v ++ rest) =
      descFromFields
        { d0 with DisplayName := if v = "" then d0.DisplayName else v } rest := by
  by_cases h : v = ""
  · subst h
    simp [omitStr]
  · simp only [omitStr, if_neg h, List.singleton_append, descFromFields,
      show applyDescField d0 ("displayName", Json.str v)
          = Except.ok { d0 with DisplayName := v } from rfl]

theorem stepDescriptionField (d0 : Description) (v : String)
    (rest : List (String × Json)) :
    descFromFields d0 (omitStr "description" v ++ rest) =
      descFromFields
        { d0 with Description := if v = "" then d0.Description else v } rest := by
  by_cases h : v = ""
  · subst h
    simp [omitStr]
  · simp only [omitStr, if_neg h, List.singleton_append, descFromFields,
      show applyDescField d0 ("description", Json.str v)
          = Except.ok { d0 with Description := v } from rfl]

theorem stepContact (d0 : Description) (v : String)
    (rest : List (String × Json)) :
    descFromFields d0 (omitStr "contact" v ++ rest) =
      descFromFields
        { d0 with Contact := if v = "" then d0.Contact else v } rest := by
  by_cases h : v = ""
  · subst h
    simp [omitStr]
  · simp only [omitStr, if_neg h, List.singleton_append, descFromFields,
      show applyDescField d0 ("contact", Json.str v)
          = Except.ok { d0 with Contact := v } from rfl]

theorem stepComment (d0 : Description) (v : String)
    (rest : List (String × Json)) :
    descFromFields d0 (omitStr "comment" v ++ rest) =
      descFromFields
        { d0 with Comment := if v = "" then d0.Comment else v } rest := by
  by_cases h : v = ""
  · subst h
    simp [omitStr]
  · simp only [omitStr, if_neg h, List.singleton_append, descFromFields,
      show applyDescField d0 ("comment", Json.str v)
          = Except.ok { d0 with Comment := v } from rfl]

theorem stepRedirect (d0 : Description) (v : String)
    (rest : List (String × Json)) :
    descFromFields d0 (omitStr "redirect" v ++ rest) =
      descFromFields
        { d0 with Redirect := if v = "" then d0.Redirect else v } rest := by
  by_cases h : v = ""
  · subst h
    simp [omitStr]
  · simp only [omitStr, if_neg h, List.singleton_append, descFromFields,
      show applyDescField d0 ("redirect", Json.str v)
          = Except.ok { d0 with Redirect := v } from rfl]

theorem stepAuthServer (d0 : Description) (v : String)
    (rest : List (String × Json)) :
    descFromFields d0 (omitStr "authServer" v ++ rest) =
      descFromFields
        { d0 with AuthServer := if v = "" then d0.AuthServer else v } rest := by
  by_cases h : v = ""
  · subst h
    simp [omitStr]
  · simp only [omitStr, if_neg h, List.singleton_append, descFromFields,
      show applyDescField d0 ("authServer", Json.str v)
          = Except.ok { d0 with AuthServer := v } from rfl]

theorem stepAuthPortal (d0 : Description) (v : String)
    (rest : List (String × Json)) :
    descFromFields d0 (omitStr "authPortal" v ++ rest) =
      descFromFields
        { d0 with AuthPortal := if v = "" then d0.AuthPortal else v } rest := by
  by_cases h : v = ""
  · subst h
    simp [omitStr]
  · simp only [omitStr, if_neg h, List.singleton_append, descFromFields,
      show applyDescField d0 ("authPortal", Json.str v)
          = Except.ok { d0 with AuthPortal := v } from rfl]

theorem stepPublic (d0 : Description) (b : Bool)
    (rest : List (String × Json)) :
    descFromFields d0 (omitBool "public" b ++ rest) =
      descFromFields
        { d0 with Public := if b then true else d0.Public } rest := by
  cases b
  · simp only [omitBool, List.nil_append]
    simp only [Bool.false_eq_true, if_false]
    rfl
  · simp [omitBool, descFromFields,
      show applyDescField d0 ("public", Json.bool true)
          = Except.ok { d0 with Public := true } from rfl]

theorem stepAllowRecording (d0 : Description) (b : Bool)
    (rest : List (String × Json)) :
    descFromFields d0 (omitBool "allow-recording" b ++ rest) =
      descFromFields
        { d0 with AllowRecording := if b then true else d0.AllowRecording } rest := by
  cases b
  · simp only [omitBool, List.nil_append]
    simp only [Bool.false_eq_true, if_false]
    rfl
  · simp [omitBool, descFromFields,
      show applyDescField d0 ("allow-recording", Json.bool true)
          = Except.ok { d0 with AllowRecording := true } from rfl]

theorem stepUnrestrictedTokens (d0 : Description) (b : Bool)
    (rest : List (String × Json)) :
    descFromFields d0 (omitBool "unrestricted-tokens" b ++ rest) =
      descFromFields
        { d0 with UnrestrictedTokens := if b then true else d0.UnrestrictedTokens } rest := by
  cases b
  · simp only [omitBool, List.nil_append]
    simp only [Bool.false_eq_true, if_false]
    rfl
  · simp [omitBool, descFromFields,
      show applyDescField d0 ("unrestricted-tokens", Json.bool true)
          = Except.ok { d0 with UnrestrictedTokens := true } from rfl]

theorem stepAutoSubgroups (d0 : Description) (b : Bool)
    (rest : List (String × Json)) :
    descFromFields d0 (omitBool "auto-subgroups" b ++ rest) =
      descFromFields
        { d0 with AutoSubgroups := if b then true else d0.AutoSubgroups } rest := by
  cases b
  · simp only [omitBool, List.nil_append]
    simp only [Bool.false_eq_true, if_false]
    rfl
  · simp [omitBool, descFromFields,
      show applyDescField d0 ("auto-subgroups", Json.bool true)
          = Except.ok { d0 with AutoSubgroups := true } from rfl]

theorem stepAutolock (d0 : Description) (b : Bool)
    (rest : List (String × Json)) :
    descFromFields d0 (omitBool "autolock" b ++ rest) =
      descFromFields
        { d0 with Autolock := if b then true else d0.Autolock } rest := by
  cases b
  · simp only [omitBool, List.nil_append]
    simp only [Bool.false_eq_true, if_false]
    rfl
  · simp [omitBool, descFromFields,
      show applyDescField d0 ("autolock", Json.bool true)
          = Except.ok { d0 with Autolock := true } from rfl]

theorem stepAutokick (d0 : Description) (b : Bool)
    (rest : List (String × Json)) :
    descFromFields d0 (omitBool "autokick" b ++ rest) =
      descFromFields
        { d0 with Autokick := if b then true else d0.Autokick } rest := by
  cases b
  · simp only [omitBool, List.nil_append]
    simp only [Bool.false_eq_true, if_false]
    rfl
  · simp [omitBool, descFromFields,
      show applyDescField d0 ("autokick", Json.bool true)
          = Except.ok { d0 with Autokick := true } from rfl]

theorem stepAllowSubgroups (d0 : Description) (b : Bool)
    (rest : List (String × Json)) :
    descFromFields d0 (omitBool "allow-subgroups" b ++ rest) =
      descFromFields
        { d0 with AllowSubgroups := if b then true else d0.AllowSubgroups } rest := by
  cases b
  · simp only [omitBool, List.nil_append]
    simp only [Bool.false_eq_true, if_false]
    rfl
  · simp [omitBool, descFromFields,
      show applyDescField d0 ("allow-subgroups", Json.bool true)
          = Except.ok { d0 with AllowSubgroups := true } from rfl]

theorem stepAllowAnonymous (d0 : Description) (b : Bool)
    (rest : List (String × Json)) :
    descFromFields d0 (omitBool "allow-anonymous" b ++ rest) =
      descFromFields
        { d0 with AllowAnonymous := if b then true else d0.AllowAnonymous } rest := by
  cases b
  · simp only [omitBool, List.nil_append]
    simp only [Bool.false_eq_true, if_false]
    rfl
  · simp [omitBool, descFromFields,
      show applyDescField d0 ("allow-anonymous", Json.bool true)
          = Except.ok { d0 with AllowAnonymous := true } from rfl]

theorem stepMaxClients (d0 : Description) (n : Int)
    (rest : List (String × Json)) :
    descFromFields d0 (omitInt "max-clients" n ++ rest) =
      descFromFields
        { d0 with MaxClients := if n = 0 then d0.MaxClients else n } rest := by
  by_cases h : n = 0
  · subst h
    simp [omitInt]
  · simp only [omitInt, if_neg h, List.singleton_append, descFromFields,
      show applyDescField d0 ("max-clients", Json.num n)
          = Except.ok { d0 with MaxClients := n } from rfl]

theorem stepMaxHistoryAge (d0 : Description) (n : Int)
    (rest : List (String × Json)) :
    descFromFields d0 (omitInt "max-history-age" n ++ rest) =
      descFromFields
        { d0 with MaxHistoryAge := if n = 0 then d0.MaxHistoryAge else n } rest := by
  by_cases h : n = 0
  · subst h
    simp [omitInt]
  · simp only [omitInt, if_neg h, List.singleton_append, descFromFields,
      show applyDescField d0 ("max-history-age", Json.num n)
          = Except.ok { d0 with MaxHistoryAge := n } from rfl]

theorem stepUsers (d0 : Description)
    (o : Option (List (String × UserDescription)))
    (rest : List (String × Json))
    (h0 : d0.Users = none)
    (hs : strictSortedKeys (o.getD []) = true)
    (hv : (o.getD []).all (fun kv => validUserB kv.2) = true) :
    descFromFields d0 (omitUsers "users" o ++ rest) =
      descFromFields
        { d0 with Users :=
            match o with
            | none => d0.Users
            | some [] => d0.Users
            | some l => some l } rest := by
  rcases o with _ | (_ | ⟨x, t⟩)
  · simp only [omitUsers, List.nil_append]
  · simp only [omitUsers, List.nil_append]
  · simp only [Option.getD_some] at hs hv
    have hsort : sortByKey (x :: t) = x :: t := sortByKey_sorted_id _ hs
    have hdec : decodeUsersInto []
        ((x :: t).map fun kv => (kv.1, marshalUserDescription kv.2))
        = Except.ok (x :: t) := by
      simpa using decodeUsersInto_roundtrip [] (x :: t) (by simp) hs hv
    simp only [omitUsers, hsort, List.singleton_append, descFromFields]
    rw [show applyDescField d0 ("users",
          Json.obj ((x :: t).map fun kv =>
            (kv.1, marshalUserDescription kv.2)))
        = (decodeUsersInto (d0.Users.getD [])
            ((x :: t).map fun kv => (kv.1, marshalUserDescription kv.2))).map
            (fun l => { d0 with Users := some l }) from rfl]
    rw [h0]
    simp only [Option.getD_none]
    rw [hdec]
    rfl

theorem stepFallbackUsers (d0 : Description)
    (o : Option (List UserDescription)) (rest : List (String × Json))
    (hv : (o.getD []).all validUserB = true) :
    descFromFields d0
        (omitList "fallback-users" marshalUserDescription o ++ rest) =
      descFromFields
        { d0 with FallbackUsers :=
            match o with
            | none => d0.FallbackUsers
            | some [] => d0.FallbackUsers
            | some l => some l } rest := by
  rcases o with _ | (_ | ⟨x, t⟩)
  · simp only [omitList, List.nil_append]
  · simp only [omitList, List.nil_append]
  · simp only [Option.getD_some] at hv
    have hl : decodeJsonList decodeUserDescription
        ((x :: t).map marshalUserDescription) = Except.ok (x :: t) :=
      decodeJsonList_roundtrip decodeUserDescription marshalUserDescription
        (x :: t)
        (fun a ha => decodeUD_roundtrip a (by
          simp only [List.all_eq_true] at hv
          exact hv a ha))
    simp only [omitList, List.singleton_append, descFromFields]
    rw [show applyDescField d0 ("fallback-users",
          Json.arr ((x :: t).map marshalUserDescription))
        = (decodeJsonList decodeUserDescription
            ((x :: t).map marshalUserDescription)).map
            (fun l => { d0 with FallbackUsers := some l }) from rfl]
    rw [hl]
    rfl

theorem stepAuthKeys (d0 : Description) (o : Option (List Json))
    (rest : List (String × Json))
    (hv : (o.getD []).all objOrNull = true) :
    descFromFields d0 (omitList "authKeys" id o ++ rest) =
      descFromFields
        { d0 with AuthKeys :=
            match o with
            | none => d0.AuthKeys
            | some [] => d0.AuthKeys
            | some l => some l } rest := by
  rcases o with _ | (_ | ⟨x, t⟩)
  · simp only [omitList, List.nil_append]
  · simp only [omitList, List.nil_append]
  · simp only [Option.getD_some] at hv
    have hl : decodeJsonList decodeAuthKey ((x :: t).map id)
        = Except.ok (x :: t) :=
      decodeJsonList_roundtrip decodeAuthKey id (x :: t)
        (fun a ha => decodeAuthKey_id a (by
          simp only [List.all_eq_true] at hv
          exact hv a ha))
    simp only [omitList, List.singleton_append, descFromFields]
    rw [show applyDescField d0 ("authKeys", Json.arr ((x :: t).map id))
        = (decodeJsonList decodeAuthKey ((x :: t).map id)).map
            (fun l => { d0 with AuthKeys := some l }) from rfl]
    rw [hl]
    rfl

theorem stepCodecs (d0 : Description) (o : Option (List String))
    (rest : List (String × Json)) :
    descFromFields d0 (omitList "codecs" Json.str o ++ rest) =
      descFromFields
        { d0 with Codecs :=
            match o with
            | none => d0.Codecs
            | some [] => d0.Codecs
            | some l => some l } rest := by
  rcases o with _ | (_ | ⟨x, t⟩)
  · simp only [omitList, List.nil_append]
  · simp only [omitList, List.nil_append]
  · have hl : decodeJsonList asStr ((x :: t).map Json.str)
        = Except.ok (x :: t) :=
      decodeJsonList_roundtrip asStr Json.str (x :: t) (fun a _ => rfl)
    simp only [omitList, List.singleton_append, descFromFields]
    rw [show applyDescField d0 ("codecs", Json.arr ((x :: t).map Json.str))
        = (decodeJsonList asStr ((x :: t).map Json.str)).map
            (fun l => { d0 with Codecs := some l }) from rfl]
    rw [hl]
    rfl

theorem stepOp (d0 : Description) (o : Option (List ClientPattern))
    (rest : List (String × Json))
    (hv : (o.getD []).all validCP = true) :
    descFromFields d0 (omitList "op" marshalClientPattern o ++ rest) =
      descFromFields
        { d0 with Op :=
            match o with
            | none => d0.Op
            | some [] => d0.Op
            | some l => some l } rest := by
  rcases o with _ | (_ | ⟨x, t⟩)
  · simp only [omitList, List.nil_append]
  · simp only [omitList, List.nil_append]
  · simp only [Option.getD_some] at hv
    have hl : decodeJsonList decodeClientPattern
        ((x :: t).map marshalClientPattern) = Except.ok (x :: t) :=
      decodeJsonList_roundtrip decodeClientPattern marshalClientPattern
        (x :: t)
        (fun a ha => decodeCP_roundtrip a (by
          simp only [List.all_eq_true] at hv
          exact hv a ha))
    simp only [omitList, List.singleton_append, descFromFields]
    rw [show applyDescField d0 ("op",
          Json.arr ((x :: t).map marshalClientPattern))
        = (decodeJsonList decodeClientPattern
            ((x :: t).map marshalClientPattern)).map
            (fun l => { d0 with Op := some l }) from rfl]
    rw [hl]
    rfl

theorem stepPresenter (d0 : Description) (o : Option (List ClientPattern))
    (rest : List (String × Json))
    (hv : (o.getD []).all validCP = true) :
    descFromFields d0 (omitList "presenter" marshalClientPattern o ++ rest) =
      descFromFields
        { d0 with Presenter :=
            match o with
            | none => d0.Presenter
            | some [] => d0.Presenter
            | some l => some l } rest := by
  rcases o with _ | (_ | ⟨x, t⟩)
  · simp only [omitList, List.nil_append]
  · simp only [omitList, List.nil_append]
  · simp only [Option.getD_some] at hv
    have hl : decodeJsonList decodeClientPattern
        ((x :: t).map marshalClientPattern) = Except.ok (x :: t) :=
      decodeJsonList_roundtrip decodeClientPattern marshalClientPattern
        (x :: t)
        (fun a ha => decodeCP_roundtrip a (by
          simp only [List.all_eq_true] at hv
          exact hv a ha))
    simp only [omitList, List.singleton_append, descFromFields]
    rw [show applyDescField d0 ("presenter",
          Json.arr ((x :: t).map marshalClientPattern))
        = (decodeJsonList decodeClientPattern
            ((x :: t).map marshalClientPattern)).map
            (fun l => { d0 with Presenter := some l }) from rfl]
    rw [hl]
    rfl

theorem stepOther (d0 : Description) (o : Option (List ClientPattern))
    (rest : List (String × Json))
    (hv : (o.getD []).all validCP = true) :
    descFromFields d0 (omitList "other" marshalClientPattern o ++ rest) =
      descFromFields
        { d0 with Other :=
            match o with
            | none => d0.Other
            | some [] => d0.Other
            | some l => some l } rest := by
  rcases o with _ | (_ | ⟨x, t⟩)
  · simp only [omitList, List.nil_append]
  · simp only [omitList, List.nil_append]
  · simp only [Option.getD_some] at hv
    have hl : decodeJsonList decodeClientPattern
        ((x :: t).map marshalClientPattern) = Except.ok (x :: t) :=
      decodeJsonList_roundtrip decodeClientPattern marshalClientPattern
        (x :: t)
        (fun a ha => decodeCP_roundtrip a (by
          simp only [List.all_eq_true] at hv
          exact hv a ha))
    simp only [omitList, List.singleton_append, descFromFields]
    rw [show applyDescField d0 ("other",
          Json.arr ((x :: t).map marshalClientPattern))
        = (decodeJsonList decodeClientPattern
            ((x :: t).map marshalClientPattern)).map
            (fun l => { d0 with Other := some l }) from rfl]
    rw [hl]
    rfl

theorem descFromFields_append (d : Description)
    (xs ys : List (String × Json)) :
    descFromFields d (xs ++ ys) =
      match descFromFields d xs with
      | Except.ok d' => descFromFields d' ys
      | Except.error e => Except.error e := by
  induction xs generalizing d with
  | nil => simp [descFromFields]
  | cons kv rest ih =>
      simp only [List.cons_append, descFromFields]
      cases applyDescField d kv <;> simp [ih]

set_option maxHeartbeats 1000000 in
/-- C8: for every valid `Description` value, decoding the result of
encoding it yields a `Description` field-for-field equal to the original,
covering both the named-role `Permissions` form (encoded as a bare role
string) and the explicit-list form (encoded as a string array), with the
decoder trying the array shape first and then a validated role string. -/
theorem c8_description_roundtrip (d : Description)
    (h : validDescription d = true) :
    unmarshalDescription (marshalDescription d) = Except.ok d := by
  obtain ⟨fn, mt, fz, isb, dn, dsc, ct, cm, pb, rd, mc, mh, ar, ut, asg,
    alck, akck, us, fu, ak, asv, apt, cds, op, pr, ot, alsg, alan⟩ := d
  simp only [validDescription, Bool.and_eq_true, decide_eq_true_eq,
    Bool.not_eq_true'] at h
  obtain ⟨⟨⟨⟨⟨⟨⟨⟨⟨⟨⟨⟨⟨⟨⟨⟨⟨h1, h2⟩, h3⟩, h4⟩, h5⟩, h6⟩, h7⟩, h8⟩, h9⟩,
    h10⟩, h11⟩, h12⟩, h13⟩, h14⟩, h15⟩, h16⟩, h17⟩, h18⟩ := h
  subst h1; subst h2; subst h3; subst h4
  simp only [marshalDescription, unmarshalDescription]
  simp only [List.append_assoc]
  rw [← List.append_nil (omitBool "allow-anonymous" alan)]
  rw [stepDisplayName]
  dsimp only []
  rw [stepDescriptionField]
  dsimp only []
  rw [stepContact]
  dsimp only []
  rw [stepComment]
  dsimp only []
  rw [stepPublic]
  dsimp only []
  rw [stepRedirect]
  dsimp only []
  rw [stepMaxClients]
  dsimp only []
  rw [stepMaxHistoryAge]
  dsimp only []
  rw [stepAllowRecording]
  dsimp only []
  rw [stepUnrestrictedTokens]
  dsimp only []
  rw [stepAutoSubgroups]
  dsimp only []
  rw [stepAutolock]
  dsimp only []
  rw [stepAutokick]
  dsimp only []
  rw [stepUsers]
  dsimp only []
  rw [stepFallbackUsers]
  dsimp only []
  rw [stepAuthKeys]
  dsimp only []
  rw [stepAuthServer]
  dsimp only []
  rw [stepAuthPortal]
  dsimp only []
  rw [stepCodecs]
  dsimp only []
  rw [stepOp]
  dsimp only []
  rw [stepPresenter]
  dsimp only []
  rw [stepOther]
  dsimp only []
  rw [stepAllowSubgroups]
  dsimp only []
  rw [stepAllowAnonymous]
  dsimp only []
  all_goals try first | assumption | rfl
  simp only [descFromFields, Except.ok.injEq, Description.mk.injEq]
  repeat' apply And.intro
  all_goals first
    | rfl
    | trivial
    | (split <;> simp_all [notEmptySome])

/-- Witness for C8: the round trip at `sampleDescription`. -/
theorem c8_description_roundtrip_witness :
    validDescription sampleDescription = true ∧
    unmarshalDescription (marshalDescription sampleDescription)
      = Except.ok sampleDescription :=
  ⟨by decide, c8_description_roundtrip sampleDescription (by decide)⟩

/-- The migration is the identity once the obsolete fields are empty. -/
theorem upgradeDescription_id (d : Description)
    (h1 : d.AllowAnonymous = false) (h2 : d.AllowSubgroups = false)
    (h3 : d.Op = none) (h4 : d.Presenter = none) (h5 : d.Other = none) :
    upgradeDescription d = d := by
  simp [upgradeDescription, h1, h2, h3, h4, h5]

/-- C5: a request for a name with no configuration file at the exact
path but a file at a strict ancestor yields, when that ancestor file sets
`AutoSubgroups`, a Description with `isSubgroup = true`, `Public =
false`, empty description text, and all other fields taken from the
ancestor file; when the flag is not set, or no file exists anywhere
along the ancestor chain, the request fails NotFound.  (The first part
is stated for ancestor files with empty obsolete fields, on which the
load-time migration is the identity.) -/
theorem c5_subgroup_synthesis :
    (∀ (dir : String) (fs : FS) (name : String) (f : File) (fn : String)
        (d0 : Description),
      getDescriptionFile dir fs name = Except.ok (f, fn, true) →
      unmarshalDescription f.content = Except.ok d0 →
      d0.AutoSubgroups = true →
      d0.AllowAnonymous = false → d0.AllowSubgroups = false →
      d0.Op = none → d0.Presenter = none → d0.Other = none →
      readDescription dir fs name =
        Except.ok
          { d0 with
            isSubgroup := true
            Public := false
            Description := ""
            FileName := fn
            fileSize := f.size
            modTime := f.modTime }) ∧
    (∀ (dir : String) (fs : FS) (name : String) (f : File) (fn : String)
        (d0 : Description),
      getDescriptionFile dir fs name = Except.ok (f, fn, true) →
      unmarshalDescription f.content = Except.ok d0 →
      d0.AutoSubgroups = false →
      readDescription dir fs name = Except.error StoreErr.notExist) ∧
    (∀ (dir : String) (fs : FS) (name : String),
      getDescriptionFile dir fs name = Except.error StoreErr.notExist →
      readDescription dir fs name = Except.error StoreErr.notExist) := by
  refine ⟨?_, ?_, ?_⟩
  · intro dir fs name f fn d0 hget hdec hauto h1 h2 h3 h4 h5
    simp only [readDescription, hget, hdec, hauto, not_true, and_false,
      if_false, if_true, ite_true, ite_false]
    rw [upgradeDescription_id]
    · exact h1
    · exact h2
    · exact h3
    · exact h4
    · exact h5
  · intro dir fs name f fn d0 hget hdec hauto
    simp [readDescription, hget, hdec, hauto]
  · intro dir fs name hget
    simp [readDescription, hget]

/-- Witness for C5: a subgroup request against `autoSubFS` synthesises
the inherited description; against `obsoleteSubFS` (whose ancestor does
not set `AutoSubgroups`) and against the empty store it fails
NotFound. -/
theorem c5_subgroup_synthesis_witness :
    readDescription "groups" autoSubFS "g/sub" =
      Except.ok
        { DisplayName := "G", AutoSubgroups := true, isSubgroup := true,
          Public := false, Description := "",
          FileName := "groups/g.json", fileSize := 10, modTime := 100 } ∧
    readDescription "groups" obsoleteSubFS "g/sub" =
      Except.error StoreErr.notExist ∧
    readDescription "groups" [] "nosuch" =
      Except.error StoreErr.notExist :=
  ⟨c5_subgroup_synthesis.1 "groups" autoSubFS "g/sub" _ "groups/g.json"
      { DisplayName := "G", AutoSubgroups := true }
      rfl rfl rfl rfl rfl rfl rfl rfl,
   c5_subgroup_synthesis.2.1 "groups" obsoleteSubFS "g/sub" _
      "groups/g.json" { AllowSubgroups := true } rfl rfl rfl,
   c5_subgroup_synthesis.2.2 "groups" [] "nosuch" rfl⟩

/-- C6, counterexample: a request for `"g/sub"` whose only configuration
file sits at the strict ancestor `"g"` and sets the obsolete
`allow-subgroups` flag (but not `auto-subgroups`) fails NotFound — it is
not resolved as a valid subgroup, because the subgroup-validity check
runs on the decoded file before the migration translates the flag. -/
theorem c6_counterexample :
    readDescription "groups" obsoleteSubFS "g/sub" =
      Except.error StoreErr.notExist := rfl

/-- C6, amended: on every load the obsolete allow-subgroups boolean is
translated into the auto-create-subgroups flag and cleared, but the
strict-ancestor subgroup check reads the stored `AutoSubgroups` flag
before the migration runs; consequently a request for a subgroup name
whose only configuration file sits at a strict ancestor setting only the
obsolete flag fails NotFound. -/
theorem c6_upgrade_timing :
    (∀ d : Description, d.AllowSubgroups = true →
      (upgradeDescription d).AutoSubgroups = true ∧
      (upgradeDescription d).AllowSubgroups = false) ∧
    (∀ (dir : String) (fs : FS) (name : String) (f : File) (fn : String)
        (d0 : Description),
      getDescriptionFile dir fs name = Except.ok (f, fn, true) →
      unmarshalDescription f.content = Except.ok d0 →
      d0.AllowSubgroups = true → d0.AutoSubgroups = false →
      readDescription dir fs name = Except.error StoreErr.notExist) := by
  constructor
  · intro d h
    cases hA : d.AllowAnonymous <;>
      rcases hOp : d.Op with _ | ps₁ <;>
      rcases hP : d.Presenter with _ | ps₂ <;>
      rcases hO : d.Other with _ | ps₃ <;>
      simp [upgradeDescription, upgradeUsers, h, hA, hOp, hP, hO]
  · intro dir fs name f fn d0 hget hdec _ hauto
    simp [readDescription, hget, hdec, hauto]

/-- Witness for C6 at concrete inputs. -/
theorem c6_upgrade_timing_witness :
    ((upgradeDescription
        ({ AllowSubgroups := true } : Description)).AutoSubgroups = true ∧
      (upgradeDescription
        ({ AllowSubgroups := true } : Description)).AllowSubgroups
        = false) ∧
    readDescription "groups" obsoleteSubFS "g/other" =
      Except.error StoreErr.notExist :=
  ⟨c6_upgrade_timing.1 { AllowSubgroups := true } rfl,
   c6_upgrade_timing.2 "groups" obsoleteSubFS "g/other" _
     "groups/g.json" { AllowSubgroups := true } rfl rfl rfl rfl⟩

/-! ### File-system lemmas -/

theorem lookup_cons {α : Type} (q k : String) (v : α)
    (rest : List (String × α)) :
    List.lookup q ((k, v) :: rest) =
      if q = k then some v else List.lookup q rest := by
  by_cases h : q = k
  · subst h; simp [List.lookup]
  · simp [List.lookup, show (q == k) = false from beq_eq_false_iff_ne.mpr h, h]

theorem fsGet_fsSet (fs : FS) (p : String) (f : File) (q : String) :
    fsGet (fsSet fs p f) q = if q = p then some f else fsGet fs q := by
  induction fs with
  | nil =>
      simp only [fsGet, fsSet, upsert]
      rw [lookup_cons]
  | cons kv rest ih =>
      rcases kv with ⟨k, v⟩
      simp only [fsGet, fsSet] at ih ⊢
      by_cases hk : k = p
      · subst hk
        simp only [upsert, if_pos rfl, if_true, lookup_cons]
        by_cases h : q = k <;> simp [h]
      · simp only [upsert, if_neg hk, lookup_cons, ih]
        by_cases h : q = k <;> by_cases hq : q = p <;> simp_all

theorem fsGet_fsRemove (fs : FS) (p q : String) :
    fsGet (fsRemove fs p) q = if q = p then none else fsGet fs q := by
  by_cases hqp : q = p
  · subst hqp
    simp only [if_pos rfl]
    induction fs with
    | nil => simp [fsGet, fsRemove, List.lookup]
    | cons kv rest ih =>
        rcases kv with ⟨k, v⟩
        simp only [fsGet, fsRemove] at ih ⊢
        rw [List.filter_cons]
        by_cases hk : k = q
        · rw [if_neg (by simp [hk])]
          exact ih
        · rw [if_pos (by simp [hk]), lookup_cons, if_neg (Ne.symm hk)]
          exact ih
  · simp only [if_neg hqp]
    induction fs with
    | nil => simp [fsGet, fsRemove]
    | cons kv rest ih =>
        rcases kv with ⟨k, v⟩
        simp only [fsGet, fsRemove] at ih ⊢
        rw [List.filter_cons]
        by_cases hk : k = p
        · rw [if_neg (by simp [hk]), lookup_cons,
            if_neg (fun hqk => hqp (hqk.trans hk))]
          exact ih
        · rw [if_pos (by simp [hk]), lookup_cons, lookup_cons, ih]

/-- On failure, the write block changes nothing outside the temporary
file and removes the temporary file. -/
theorem writeDescription_error (env : WriteEnv) (fs : FS)
    (name filename : String) (nd : Description)
    (hfresh : fsGet fs env.tempName = none) (e : StoreErr)
    (he : (writeDescription env fs name filename nd).1 = Except.error e) :
    (∀ p, p ≠ env.tempName →
      fsGet (writeDescription env fs name filename nd).2 p = fsGet fs p) ∧
    fsGet (writeDescription env fs name filename nd).2 env.tempName
      = none := by
  unfold writeDescription
  by_cases h0 : patternHasSeparator (name ++ "*.temp") <;>
    by_cases h1 : env.createTempOk <;>
    by_cases h2 : env.encodeOk <;>
    by_cases h3 : env.syncOk <;>
    by_cases h4 : env.closeOk <;>
    by_cases h5 : env.renameOk <;>
    simp only [h0, h1, h2, h3, h4, h5, not_true, not_false_iff, if_true,
      if_false, ite_true, ite_false, true_or, false_or, or_true,
      or_false] <;>
    first
      | (exfalso
         revert he
         unfold writeDescription
         simp [h0, h1, h2, h3, h4, h5]
         done)
      | exact ⟨fun p hp => by
            simp [fsGet_fsRemove, fsGet_fsSet, hp, hfresh],
          by simp [fsGet_fsRemove, fsGet_fsSet, hfresh]⟩

/-- On success, the write block leaves the encoded document at the
target and removes the temporary file. -/
theorem writeDescription_ok (env : WriteEnv) (fs : FS)
    (name filename : String) (nd : Description)
    (hok : (writeDescription env fs name filename nd).1 = Except.ok ()) :
    fsGet (writeDescription env fs name filename nd).2 filename =
      some ⟨env.newSize, env.newModTime, marshalDescription nd⟩ ∧
    (env.tempName ≠ filename →
      fsGet (writeDescription env fs name filename nd).2 env.tempName
        = none) := by
  unfold writeDescription
  by_cases h0 : patternHasSeparator (name ++ "*.temp") <;>
    by_cases h1 : env.createTempOk <;>
    by_cases h2 : env.encodeOk <;>
    by_cases h3 : env.syncOk <;>
    by_cases h4 : env.closeOk <;>
    by_cases h5 : env.renameOk <;>
    simp only [h0, h1, h2, h3, h4, h5, not_true, not_false_iff, if_true,
      if_false, ite_true, ite_false, true_or, false_or, or_true,
      or_false] <;>
    first
      | (exfalso
         revert hok
         unfold writeDescription
         simp [h0, h1, h2, h3, h4, h5]
         done)
      | exact ⟨by simp [fsGet_fsRemove, fsGet_fsSet],
          fun hne => by simp [fsGet_fsRemove, fsGet_fsSet, hne]⟩

end Galene

namespace Galene

/-- C2: an update writes the new description to a temporary file,
syncs, closes and renames it over the target; if any step fails the
temporary file is removed and every path other than the temporary file —
the target in particular — is left exactly as it was; on success the
serialized document sits at the target path and the temporary file is
gone. -/
theorem c2_atomic_persistence (dir : String) (env : WriteEnv) (fs : FS)
    (name etag : String) (desc : Description)
    (hfresh : fsGet fs env.tempName = none) :
    (∀ e, (UpdateDescription dir env fs name etag desc).1
          = Except.error e →
        (∀ p, p ≠ env.tempName →
          fsGet (UpdateDescription dir env fs name etag desc).2 p
            = fsGet fs p) ∧
        fsGet (UpdateDescription dir env fs name etag desc).2 env.tempName
          = none) ∧
    (∀ tgt, updateTargetPath dir fs name = some tgt →
        tgt ≠ env.tempName →
        (UpdateDescription dir env fs name etag desc).1 = Except.ok () →
        (∃ nd,
          fsGet (UpdateDescription dir env fs name etag desc).2 tgt
            = some ⟨env.newSize, env.newModTime, marshalDescription nd⟩) ∧
        fsGet (UpdateDescription dir env fs name etag desc).2 env.tempName
          = none) := by
  by_cases hsan :
      (desc.Users.isSome ∨ desc.FallbackUsers.isSome ∨ desc.AuthKeys.isSome)
  · simp only [UpdateDescription, if_pos hsan]
    constructor
    · intro e _
      exact ⟨fun p _ => by first | rfl | trivial, hfresh⟩
    · intro tgt _ _ hok
      simp at hok
  · simp only [UpdateDescription, if_neg hsan]
    cases hread : readDescription dir fs name with
    | ok old =>
        simp only []
        by_cases htag : makeETag old.fileSize old.modTime ≠ etag
        · simp only [if_pos htag]
          constructor
          · intro e _
            exact ⟨fun p _ => by first | rfl | trivial, hfresh⟩
          · intro tgt _ _ hok
            simp at hok
        · simp only [if_neg htag]
          constructor
          · intro e he
            exact writeDescription_error env fs name old.FileName _
              hfresh e he
          · intro tgt htgt hne hok
            have h := writeDescription_ok env fs name old.FileName
              (mergeDescription desc (some old)) hok
            have htg : tgt = old.FileName := by
              simp only [updateTargetPath, hread, Option.some.injEq] at htgt
              first
                | exact htgt
                | exact htgt.symm
            subst htg
            exact ⟨⟨mergeDescription desc (some old), h.1⟩,
              h.2 (fun hc => hne hc.symm)⟩
    | error e0 =>
        cases e0 with
        | notExist =>
            simp only []
            by_cases htag : ("" : String) ≠ etag
            · simp only [if_pos htag]
              constructor
              · intro e _
                exact ⟨fun p _ => by first | rfl | trivial, hfresh⟩
              · intro tgt _ _ hok
                simp at hok
            · simp only [if_neg htag]
              constructor
              · intro e he
                exact writeDescription_error env fs name
                  (descriptionPath dir name) _ hfresh e he
              · intro tgt htgt hne hok
                have h := writeDescription_ok env fs name
                  (descriptionPath dir name) (mergeDescription desc none) hok
                have htg : tgt = descriptionPath dir name := by
                  simp only [updateTargetPath, hread, Option.some.injEq] at htgt
                  first
                    | exact htgt
                    | exact htgt.symm
                subst htg
                exact ⟨⟨mergeDescription desc none, h.1⟩,
                  h.2 (fun hc => hne hc.symm)⟩
        | tagMismatch =>
            refine ⟨fun e _ => ⟨fun p _ => rfl, hfresh⟩, fun tgt htgt => ?_⟩
            simp [updateTargetPath, hread] at htgt
        | notSanitised =>
            refine ⟨fun e _ => ⟨fun p _ => rfl, hfresh⟩, fun tgt htgt => ?_⟩
            simp [updateTargetPath, hread] at htgt
        | badDescription =>
            refine ⟨fun e _ => ⟨fun p _ => rfl, hfresh⟩, fun tgt htgt => ?_⟩
            simp [updateTargetPath, hread] at htgt
        | ioError =>
            refine ⟨fun e _ => ⟨fun p _ => rfl, hfresh⟩, fun tgt htgt => ?_⟩
            simp [updateTargetPath, hread] at htgt

/-- Witness for C2: a sync failure leaves the target untouched and the
temporary file removed; an untroubled run publishes the new document. -/
theorem c2_atomic_persistence_witness :
    (UpdateDescription "groups"
        { tempName := "groups/a1.temp", newSize := 7, newModTime := 9,
          syncOk := false }
        [("groups/a.json", ⟨3, 5, Json.obj [("public", Json.bool true)]⟩)]
        "a" (makeETag 3 5) { DisplayName := "New" }).1
      = Except.error StoreErr.ioError ∧
    fsGet (UpdateDescription "groups"
        { tempName := "groups/a1.temp", newSize := 7, newModTime := 9,
          syncOk := false }
        [("groups/a.json", ⟨3, 5, Json.obj [("public", Json.bool true)]⟩)]
        "a" (makeETag 3 5) { DisplayName := "New" }).2 "groups/a.json"
      = some ⟨3, 5, Json.obj [("public", Json.bool true)]⟩ ∧
    fsGet (UpdateDescription "groups"
        { tempName := "groups/a1.temp", newSize := 7, newModTime := 9,
          syncOk := false }
        [("groups/a.json", ⟨3, 5, Json.obj [("public", Json.bool true)]⟩)]
        "a" (makeETag 3 5) { DisplayName := "New" }).2 "groups/a1.temp"
      = none := by
  have h := c2_atomic_persistence "groups"
    { tempName := "groups/a1.temp", newSize := 7, newModTime := 9,
      syncOk := false }
    [("groups/a.json", ⟨3, 5, Json.obj [("public", Json.bool true)]⟩)]
    "a" (makeETag 3 5) { DisplayName := "New" } rfl
  have h1 := h.1 StoreErr.ioError rfl
  exact ⟨rfl, (h1.1 "groups/a.json" (by decide)).trans rfl, h1.2⟩

/-- C3: an update whose input carries `Users`, `FallbackUsers` or
`AuthKeys` is rejected as not sanitised before any state change; on every
successful update the stored document keeps the prior version's `Users`,
`FallbackUsers` and `AuthKeys` verbatim (empty when no prior version
existed) while all other fields come from the caller's input. -/
theorem c3_secret_preservation :
    (∀ (dir : String) (env : WriteEnv) (fs : FS) (name etag : String)
        (desc : Description),
      desc.Users.isSome ∨ desc.FallbackUsers.isSome ∨
          desc.AuthKeys.isSome →
      UpdateDescription dir env fs name etag desc
        = (Except.error StoreErr.notSanitised, fs)) ∧
    (∀ (dir : String) (env : WriteEnv) (fs : FS) (name etag : String)
        (desc old : Description),
      readDescription dir fs name = Except.ok old →
      (UpdateDescription dir env fs name etag desc).1 = Except.ok () →
      fsGet (UpdateDescription dir env fs name etag desc).2 old.FileName
        = some ⟨env.newSize, env.newModTime,
            marshalDescription
              { desc with
                Users := old.Users
                FallbackUsers := old.FallbackUsers
                AuthKeys := old.AuthKeys }⟩) ∧
    (∀ (dir : String) (env : WriteEnv) (fs : FS) (name etag : String)
        (desc : Description),
      readDescription dir fs name = Except.error StoreErr.notExist →
      (UpdateDescription dir env fs name etag desc).1 = Except.ok () →
      fsGet (UpdateDescription dir env fs name etag desc).2
          (descriptionPath dir name)
        = some ⟨env.newSize, env.newModTime, marshalDescription desc⟩) := by
  refine ⟨?_, ?_, ?_⟩
  · intro dir env fs name etag desc h
    simp [UpdateDescription, if_pos h]
  · intro dir env fs name etag desc old hread hok
    by_cases hsan :
        (desc.Users.isSome ∨ desc.FallbackUsers.isSome ∨
          desc.AuthKeys.isSome)
    · simp [UpdateDescription, if_pos hsan] at hok
    · simp only [UpdateDescription, if_neg hsan, hread] at hok ⊢
      by_cases htag : makeETag old.fileSize old.modTime ≠ etag
      · simp [if_pos htag] at hok
      · simp only [if_neg htag] at hok ⊢
        exact (writeDescription_ok env fs name old.FileName _ hok).1
  · intro dir env fs name etag desc hread hok
    by_cases hsan :
        (desc.Users.isSome ∨ desc.FallbackUsers.isSome ∨
          desc.AuthKeys.isSome)
    · simp [UpdateDescription, if_pos hsan] at hok
    · simp only [UpdateDescription, if_neg hsan, hread] at hok ⊢
      by_cases htag : ("" : String) ≠ etag
      · simp [if_pos htag] at hok
      · simp only [if_neg htag] at hok ⊢
        exact (writeDescription_ok env fs name (descriptionPath dir name)
          _ hok).1

/-- Witness for C3 at concrete inputs. -/
theorem c3_secret_preservation_witness :
    UpdateDescription "groups"
        { tempName := "groups/t.temp", newSize := 7, newModTime := 9 } []
        "a" "" { DisplayName := "x", Users := some [] }
      = (Except.error StoreErr.notSanitised, []) ∧
    fsGet (UpdateDescription "groups"
        { tempName := "groups/t.temp", newSize := 7, newModTime := 9 }
        [("groups/a.json", ⟨3, 5, Json.obj
          [("users", Json.obj [("jch", Json.obj
            [("password", Json.str "pw"),
             ("permissions", Json.str "op")])])]⟩)]
        "a" (makeETag 3 5) { DisplayName := "New" }).2 "groups/a.json"
      = some ⟨7, 9, marshalDescription
          { DisplayName := "New",
            Users := some [("jch",
              { Password := ⟨Json.str "pw"⟩,
                Permissions := { name := "op" } })] }⟩ ∧
    fsGet (UpdateDescription "groups"
        { tempName := "groups/t.temp", newSize := 7, newModTime := 9 } []
        "b" "" { DisplayName := "C" }).2 "groups/b.json"
      = some ⟨7, 9, marshalDescription { DisplayName := "C" }⟩ :=
  ⟨c3_secret_preservation.1 "groups"
      { tempName := "groups/t.temp", newSize := 7, newModTime := 9 } []
      "a" "" { DisplayName := "x", Users := some [] } (Or.inl rfl),
   c3_secret_preservation.2.1 "groups"
      { tempName := "groups/t.temp", newSize := 7, newModTime := 9 }
      [("groups/a.json", ⟨3, 5, Json.obj
        [("users", Json.obj [("jch", Json.obj
          [("password", Json.str "pw"),
           ("permissions", Json.str "op")])])]⟩)]
      "a" (makeETag 3 5) { DisplayName := "New" }
      { Users := some [("jch",
          { Password := ⟨Json.str "pw"⟩,
            Permissions := { name := "op" } })],
        FileName := "groups/a.json", fileSize := 3, modTime := 5 }
      rfl rfl,
   c3_secret_preservation.2.2 "groups"
      { tempName := "groups/t.temp", newSize := 7, newModTime := 9 } []
      "b" "" { DisplayName := "C" } rfl rfl⟩

theorem makeETag_ne_empty (s t : Int) : makeETag s t ≠ "" := by
  intro h
  have hlen := congrArg String.length h
  simp [makeETag, String.length_append] at hlen
  exact absurd hlen.2 (by decide)

theorem writeDescription_ne_tagMismatch (env : WriteEnv) (fs : FS)
    (name fn : String) (nd : Description) :
    (writeDescription env fs name fn nd).1 ≠
      Except.error StoreErr.tagMismatch := by
  unfold writeDescription
  by_cases h0 : patternHasSeparator (name ++ "*.temp") <;>
    by_cases h1 : env.createTempOk <;>
    by_cases h2 : env.encodeOk <;>
    by_cases h3 : env.syncOk <;>
    by_cases h4 : env.closeOk <;>
    by_cases h5 : env.renameOk <;>
    simp [h0, h1, h2, h3, h4, h5]

theorem upgradeDescription_isSubgroup (d : Description) :
    (upgradeDescription d).isSubgroup = d.isSubgroup := by
  cases hA : d.AllowAnonymous <;> cases hS : d.AllowSubgroups <;>
    rcases hOp : d.Op with _ | ps₁ <;>
    rcases hP : d.Presenter with _ | ps₂ <;>
    rcases hO : d.Other with _ | ps₃ <;>
    simp [upgradeDescription, upgradeUsers, hA, hS, hOp, hP, hO]

theorem getDescriptionFileAux_error (dir : String) (fs : FS)
    (fuel : Nat) (cs : List Char) (isP : Bool) (e : StoreErr)
    (h : getDescriptionFileAux dir fs fuel cs isP = Except.error e) :
    e = StoreErr.notExist := by
  induction fuel generalizing cs isP with
  | zero =>
      cases cs <;> simp [getDescriptionFileAux] at h <;> exact h.symm
  | succ n ih =>
      cases cs with
      | nil =>
          simp [getDescriptionFileAux] at h
          exact h.symm
      | cons c rest =>
          simp only [getDescriptionFileAux] at h
          split at h
          · simp at h
          · exact ih _ _ h
theorem getDescriptionFileAux_parent (dir : String) (fs : FS)
    (fuel : Nat) (cs : List Char) (f : File) (fn : String) (b : Bool)
    (h : getDescriptionFileAux dir fs fuel cs true = Except.ok (f, fn, b)) :
    b = true := by
  induction fuel generalizing cs with
  | zero => cases cs <;> simp [getDescriptionFileAux] at h
  | succ n ih =>
      cases cs with
      | nil => simp [getDescriptionFileAux] at h
      | cons c rest =>
          simp only [getDescriptionFileAux] at h
          split at h
          · simp only [Except.ok.injEq, Prod.mk.injEq] at h
            exact h.2.2.symm
          · exact ih _ h

theorem string_mk_toList (name : String) : String.mk name.toList = name :=
  rfl

theorem getDescriptionFile_exact (dir : String) (fs : FS) (name : String)
    (f : File) (fn : String)
    (h : getDescriptionFile dir fs name = Except.ok (f, fn, false)) :
    fn = descriptionPath dir name ∧ fsGet fs fn = some f := by
  unfold getDescriptionFile at h
  rcases hcs : name.toList with _ | ⟨c, rest⟩
  · rw [hcs] at h
    simp [getDescriptionFileAux] at h
  · rw [hcs] at h
    have hmk : String.mk (c :: rest) = name := by
      rw [← hcs]
      exact rfl
    simp only [List.length_cons, getDescriptionFileAux, hmk] at h
    split at h
    · rename_i f0 hx
      simp only [Except.ok.injEq, Prod.mk.injEq] at h
      obtain ⟨he1, he2, -⟩ := h
      subst he1
      subst he2
      exact ⟨rfl, hx⟩
    · exact absurd (getDescriptionFileAux_parent _ _ _ _ _ _ _ h) (by simp)

theorem getDescriptionFile_exact_some (dir : String) (fs : FS)
    (name : String) (f0 : File)
    (hx : fsGet fs (descriptionPath dir name) = some f0)
    (hname : name ≠ "") :
    getDescriptionFile dir fs name
      = Except.ok (f0, descriptionPath dir name, false) := by
  unfold getDescriptionFile
  rcases hcs : name.toList with _ | ⟨c, rest⟩
  · exact absurd (by
      have := congrArg String.mk hcs
      simpa [string_mk_toList] using this) hname
  · have hmk : String.mk (c :: rest) = name := by
      rw [← hcs]
      exact rfl
    simp only [List.length_cons, getDescriptionFileAux, hmk, hx]

theorem getDescriptionFile_of_exact_none (dir : String) (fs : FS)
    (name : String)
    (hx : fsGet fs (descriptionPath dir name) = none) :
    getDescriptionFile dir fs name = Except.error StoreErr.notExist ∨
    ∃ f fn, getDescriptionFile dir fs name = Except.ok (f, fn, true) := by
  unfold getDescriptionFile
  rcases hcs : name.toList with _ | ⟨c, rest⟩
  · left
    simp [getDescriptionFileAux]
  · have hmk : String.mk (c :: rest) = name := by
      rw [← hcs]
      exact rfl
    simp only [List.length_cons, getDescriptionFileAux, hmk, hx]
    rcases hres : getDescriptionFileAux dir fs rest.length
        (parentChars (c :: rest)) true with e' | f'
    · left
      have := getDescriptionFileAux_error dir fs rest.length
        (parentChars (c :: rest)) true _ hres
      subst this
      rfl
    · right
      rcases f' with ⟨f, fn, b⟩
      have := getDescriptionFileAux_parent dir fs rest.length
        (parentChars (c :: rest)) f fn b hres
      subst this
      exact ⟨f, fn, rfl⟩
theorem readDescription_parent_auto (dir : String) (fs : FS)
    (name : String) (f : File) (fn : String) (d0 : Description)
    (hget : getDescriptionFile dir fs name = Except.ok (f, fn, true))
    (hdec : unmarshalDescription f.content = Except.ok d0)
    (hauto : d0.AutoSubgroups = true)
    (h1 : d0.AllowAnonymous = false) (h2 : d0.AllowSubgroups = false)
    (h3 : d0.Op = none) (h4 : d0.Presenter = none) (h5 : d0.Other = none) :
    readDescription dir fs name =
      Except.ok
        { d0 with
          isSubgroup := true
          Public := false
          Description := ""
          FileName := fn
          fileSize := f.size
          modTime := f.modTime } := by
  simp only [readDescription, hget, hdec, hauto, not_true, and_false,
    if_false, if_true, ite_true, ite_false]
  rw [upgradeDescription_id]
  · exact h1
  · exact h2
  · exact h3
  · exact h4
  · exact h5

theorem readDescription_parent_noauto (dir : String) (fs : FS)
    (name : String) (f : File) (fn : String) (d0 : Description)
    (hget : getDescriptionFile dir fs name = Except.ok (f, fn, true))
    (hdec : unmarshalDescription f.content = Except.ok d0)
    (hauto : d0.AutoSubgroups = false) :
    readDescription dir fs name = Except.error StoreErr.notExist := by
  simp [readDescription, hget, hdec, hauto]

theorem readDescription_walk_error (dir : String) (fs : FS)
    (name : String)
    (hget : getDescriptionFile dir fs name
      = Except.error StoreErr.notExist) :
    readDescription dir fs name = Except.error StoreErr.notExist := by
  simp [readDescription, hget]

theorem readDescription_notExist_exact_none (dir : String) (fs : FS)
    (name : String) (hname : name ≠ "")
    (h : readDescription dir fs name = Except.error StoreErr.notExist) :
    fsGet fs (descriptionPath dir name) = none := by
  rcases hx : fsGet fs (descriptionPath dir name) with _ | f0
  · rfl
  · exfalso
    have hw := getDescriptionFile_exact_some dir fs name f0 hx hname
    simp only [readDescription, hw] at h
    split at h
    · simp at h
    · simp at h
/-- C1, amended: under the (sequentially modelled) mutation lock, update
and delete recompute the current tag and fail Conflict exactly when the
caller's expected tag differs from it — against an existing resolvable
description, against an absent one (where the current tag is the empty
string), and for delete against the exact file; a create with expected
tag \"\" succeeds only if no file exists at the name's own path; a delete
with the correct current tag succeeds, after which a read of the name no
longer sees the deleted file: it fails NotFound, fails on an undecodable
ancestor, or resolves to a strict-ancestor subgroup (isSubgroup =
true). -/
theorem c1_conflict_semantics :
    (∀ (dir : String) (env : WriteEnv) (fs : FS) (name etag : String)
        (desc old : Description),
      ¬(desc.Users.isSome ∨ desc.FallbackUsers.isSome ∨
          desc.AuthKeys.isSome) →
      readDescription dir fs name = Except.ok old →
      ((UpdateDescription dir env fs name etag desc).1
          = Except.error StoreErr.tagMismatch ↔
        etag ≠ makeETag old.fileSize old.modTime)) ∧
    (∀ (dir : String) (env : WriteEnv) (fs : FS) (name etag : String)
        (desc : Description),
      ¬(desc.Users.isSome ∨ desc.FallbackUsers.isSome ∨
          desc.AuthKeys.isSome) →
      readDescription dir fs name = Except.error StoreErr.notExist →
      ((UpdateDescription dir env fs name etag desc).1
          = Except.error StoreErr.tagMismatch ↔ etag ≠ "")) ∧
    (∀ (dir : String) (fs : FS) (name etag : String) (f : File)
        (fn : String),
      getDescriptionFile dir fs name = Except.ok (f, fn, false) →
      ((DeleteDescription dir fs name etag).1
          = Except.error StoreErr.tagMismatch ↔
        etag ≠ makeETag f.size f.modTime)) ∧
    (∀ (dir : String) (env : WriteEnv) (fs : FS) (name : String)
        (desc : Description),
      name ≠ "" →
      (UpdateDescription dir env fs name "" desc).1 = Except.ok () →
      fsGet fs (descriptionPath dir name) = none) ∧
    (∀ (dir : String) (fs : FS) (name : String) (f : File) (fn : String),
      getDescriptionFile dir fs name = Except.ok (f, fn, false) →
      (DeleteDescription dir fs name (makeETag f.size f.modTime)).1
          = Except.ok () ∧
      (readDescription dir
          (DeleteDescription dir fs name (makeETag f.size f.modTime)).2
          name = Except.error StoreErr.notExist ∨
       readDescription dir
          (DeleteDescription dir fs name (makeETag f.size f.modTime)).2
          name = Except.error StoreErr.badDescription ∨
       ∃ d, readDescription dir
          (DeleteDescription dir fs name (makeETag f.size f.modTime)).2
          name = Except.ok d ∧ d.isSubgroup = true)) := by
  refine ⟨?_, ?_, ?_, ?_, ?_⟩
  · intro dir env fs name etag desc old hsan hread
    simp only [UpdateDescription, if_neg hsan, hread]
    by_cases htag : makeETag old.fileSize old.modTime ≠ etag
    · simp only [if_pos htag]
      exact ⟨fun _ => Ne.symm htag, fun _ => trivial⟩
    · simp only [if_neg htag]
      exact ⟨fun hc => absurd hc
          (writeDescription_ne_tagMismatch env fs name old.FileName _),
        fun hc => absurd (not_not.mp htag).symm hc⟩
  · intro dir env fs name etag desc hsan hread
    simp only [UpdateDescription, if_neg hsan, hread]
    by_cases htag : ("" : String) ≠ etag
    · simp only [if_pos htag]
      exact ⟨fun _ => Ne.symm htag, fun _ => trivial⟩
    · simp only [if_neg htag]
      exact ⟨fun hc => absurd hc
          (writeDescription_ne_tagMismatch env fs name
            (descriptionPath dir name) _),
        fun hc => absurd (not_not.mp htag).symm hc⟩
  · intro dir fs name etag f fn hget
    simp only [DeleteDescription, hget, Bool.false_eq_true, if_false,
      ite_false]
    by_cases htag : etag ≠ makeETag f.size f.modTime
    · simp only [if_pos htag]
      exact ⟨fun _ => htag, fun _ => trivial⟩
    · simp only [if_neg htag]
      exact ⟨fun hc => by simp at hc, fun hc => absurd hc htag⟩
  · intro dir env fs name desc hname hok
    by_cases hsan :
        (desc.Users.isSome ∨ desc.FallbackUsers.isSome ∨
          desc.AuthKeys.isSome)
    · simp [UpdateDescription, if_pos hsan] at hok
    · simp only [UpdateDescription, if_neg hsan] at hok
      cases hread : readDescription dir fs name with
      | ok old =>
          rw [hread] at hok
          simp only [if_pos (makeETag_ne_empty old.fileSize old.modTime)]
            at hok
          simp at hok
      | error e0 =>
          cases e0 with
          | notExist =>
              exact readDescription_notExist_exact_none dir fs name
                hname hread
          | tagMismatch => rw [hread] at hok; simp at hok
          | notSanitised => rw [hread] at hok; simp at hok
          | badDescription => rw [hread] at hok; simp at hok
          | ioError => rw [hread] at hok; simp at hok
  · intro dir fs name f fn hget
    obtain ⟨hfn, hx⟩ := getDescriptionFile_exact dir fs name f fn hget
    have hdel : DeleteDescription dir fs name (makeETag f.size f.modTime)
        = (Except.ok (), fsRemove fs fn) := by
      simp [DeleteDescription, hget]
    refine ⟨by rw [hdel], ?_⟩
    rw [hdel]
    have hxnone : fsGet (fsRemove fs fn) (descriptionPath dir name)
        = none := by
      rw [← hfn, fsGet_fsRemove]
      simp
    rcases getDescriptionFile_of_exact_none dir (fsRemove fs fn) name
        hxnone with hw | ⟨f', fn', hw⟩
    · exact Or.inl (readDescription_walk_error _ _ _ hw)
    · cases hdec : unmarshalDescription f'.content with
      | error err =>
          refine Or.inr (Or.inl ?_)
          simp [readDescription, hw, hdec]
      | ok d0 =>
          by_cases hauto : d0.AutoSubgroups = true
          · refine Or.inr (Or.inr ⟨upgradeDescription
              { d0 with
                isSubgroup := true
                Public := false
                Description := ""
                FileName := fn'
                fileSize := f'.size
                modTime := f'.modTime }, ?_, ?_⟩)
            · simp only [readDescription, hw, hdec, hauto, not_true,
                and_false, if_false, if_true, ite_true, ite_false]
            · rw [upgradeDescription_isSubgroup]
          · exact Or.inl (readDescription_parent_noauto dir _ name f' fn'
              d0 hw hdec (by simpa using hauto))
theorem patternHasSeparator_append (s t : String)
    (h : s.toList.contains '/' = true) :
    patternHasSeparator (s ++ t) = true := by
  have hm : '/' ∈ s.toList := by
    simpa using h
  simp only [patternHasSeparator, String.toList, String.data_append]
  simpa using List.mem_append_left t.data hm

/-- C9, on the code: for a name with no configuration file of its own
that resolves to a strict-ancestor file with `AutoSubgroups` set,
`UpdateDescription` does compute its expected tag from the ancestor's
file — the empty expected tag fails Conflict even though no file exists
at the name itself — but the claimed successful write over the
ancestor's path is unreachable: every such name contains a path
separator, so `os.CreateTemp` rejects the pattern `name + "*.temp"` and
the update fails with an I/O error leaving the store unchanged, whatever
the environment does. -/
theorem c9_subgroup_update (dir : String) (env : WriteEnv) (fs : FS) (name : String)
    (f : File) (fn : String) (d0 desc : Description)
    (hsep : name.toList.contains '/' = true)
    (hget : getDescriptionFile dir fs name = Except.ok (f, fn, true))
    (hdec : unmarshalDescription f.content = Except.ok d0)
    (hauto : d0.AutoSubgroups = true)
    (h1 : d0.AllowAnonymous = false) (h2 : d0.AllowSubgroups = false)
    (h3 : d0.Op = none) (h4 : d0.Presenter = none) (h5 : d0.Other = none)
    (hsan : ¬(desc.Users.isSome ∨ desc.FallbackUsers.isSome ∨
        desc.AuthKeys.isSome)) :
    (UpdateDescription dir env fs name "" desc).1
        = Except.error StoreErr.tagMismatch ∧
    UpdateDescription dir env fs name (makeETag f.size f.modTime) desc
        = (Except.error StoreErr.ioError, fs) := by
  have hre := readDescription_parent_auto dir fs name f fn d0 hget hdec
    hauto h1 h2 h3 h4 h5
  have hsep' := patternHasSeparator_append name "*.temp" hsep
  constructor
  · simp only [UpdateDescription, if_neg hsan, hre]
    rw [if_pos (makeETag_ne_empty f.size f.modTime)]
  · simp only [UpdateDescription, if_neg hsan, hre]
    rw [if_neg (by simp)]
    simp [writeDescription, hsep']

/-- C1, counterexample: with a configuration file at `"g"` setting
`AutoSubgroups` and another at `"g/sub"`, deleting `"g/sub"` with its
correct current tag succeeds, but a subsequent read of `"g/sub"` does
not fail NotFound — it resolves to a subgroup synthesized from the
ancestor file. -/
theorem c1_counterexample :
    (DeleteDescription "groups" deepSubFS "g/sub" (makeETag 2 3)).1
      = Except.ok () ∧
    readDescription "groups"
        (DeleteDescription "groups" deepSubFS "g/sub" (makeETag 2 3)).2
        "g/sub"
      = Except.ok
          { AutoSubgroups := true, isSubgroup := true,
            FileName := "groups/g.json", fileSize := 10,
            modTime := 100 } ∧
    (Except.ok
        ({ AutoSubgroups := true, isSubgroup := true,
           FileName := "groups/g.json", fileSize := 10,
           modTime := 100 } : Description)
      ≠ (Except.error StoreErr.notExist : Except StoreErr Description)) :=
  ⟨rfl, rfl, fun h => Except.noConfusion h⟩

/-- Witness for C1 at concrete inputs: a stale tag fails Conflict both
against an existing file and against an absent one, a successful create
with tag "" implies the path was free, and a delete with the correct tag
succeeds. -/
theorem c1_conflict_semantics_witness :
    (UpdateDescription "groups"
        { tempName := "groups/w.temp", newSize := 4, newModTime := 6 }
        [("groups/a.json", ⟨3, 5, Json.obj [("public", Json.bool true)]⟩)]
        "a" "\"9-9\"" { DisplayName := "x" }).1
      = Except.error StoreErr.tagMismatch ∧
    (UpdateDescription "groups"
        { tempName := "groups/w.temp", newSize := 4, newModTime := 6 }
        [] "b" "\"9-9\"" { DisplayName := "x" }).1
      = Except.error StoreErr.tagMismatch ∧
    fsGet ([] : FS) (descriptionPath "groups" "b") = none ∧
    (DeleteDescription "groups" deepSubFS "g/sub" (makeETag 2 3)).1
      = Except.ok () :=
  ⟨(c1_conflict_semantics.1 "groups"
      { tempName := "groups/w.temp", newSize := 4, newModTime := 6 }
      [("groups/a.json", ⟨3, 5, Json.obj [("public", Json.bool true)]⟩)]
      "a" "\"9-9\"" { DisplayName := "x" }
      { Public := true, FileName := "groups/a.json", fileSize := 3,
        modTime := 5 }
      (by decide) rfl).mpr (by decide),
   (c1_conflict_semantics.2.1 "groups"
      { tempName := "groups/w.temp", newSize := 4, newModTime := 6 }
      [] "b" "\"9-9\"" { DisplayName := "x" } (by decide) rfl).mpr
      (by decide),
   c1_conflict_semantics.2.2.2.1 "groups"
      { tempName := "groups/w.temp", newSize := 4, newModTime := 6 }
      [] "b" { DisplayName := "x" } (by decide) rfl,
   (c1_conflict_semantics.2.2.2.2 "groups" deepSubFS "g/sub"
      ⟨2, 3, Json.obj [("public", Json.bool true)]⟩
      "groups/g/sub.json" rfl).1⟩

/-- Witness for C9 against `autoSubFS`: the empty tag fails Conflict,
and the ancestor's correct tag fails with an I/O error (the separator in
the `os.CreateTemp` pattern), the store unchanged, even in an
environment where every injected step succeeds. -/
theorem c9_subgroup_update_witness :
    (UpdateDescription "groups"
        { tempName := "groups/w2.temp", newSize := 4, newModTime := 6 }
        autoSubFS "g/sub" "" { DisplayName := "New" }).1
      = Except.error StoreErr.tagMismatch ∧
    UpdateDescription "groups"
        { tempName := "groups/w2.temp", newSize := 4, newModTime := 6 }
        autoSubFS "g/sub" (makeETag 10 100) { DisplayName := "New" }
      = (Except.error StoreErr.ioError, autoSubFS) :=
  c9_subgroup_update "groups"
    { tempName := "groups/w2.temp", newSize := 4, newModTime := 6 }
    autoSubFS "g/sub"
    ⟨10, 100, Json.obj [("auto-subgroups", Json.bool true),
        ("displayName", Json.str "G")]⟩
    "groups/g.json" { DisplayName := "G", AutoSubgroups := true }
    { DisplayName := "New" }
    rfl rfl rfl rfl rfl rfl rfl rfl rfl (by decide)

end Galene
